import Mathlib

/-!
# Verification of the ismip-viewer core layer

A shallow embedding, in Lean, of the algorithmic core of the ISMIP6 viewer:
the byte-shuffle codec, the CF time codec (units parsing, calendar date
arithmetic, year-based index resolution), hierarchy discovery over an
abstract store, the color-range estimator, and the viewer state machine
(panel list dynamics and shared color-range settings).

Byte buffers (`Uint8Array`) are modelled as `List Nat`; JS numbers that
carry exact values in the verified fragments are modelled as
`Int`/`Nat`/`ℚ`. The file is laid out with all definitions first,
followed by all theorems.
-/

namespace IsmipViewer

/-! ## Definitions -/

/-! ### Sequential writes into a zero-initialised buffer

`new Uint8Array(n)` followed by a sequence of `result[pos] = val`
assignments is modelled as `listWrites` applied to `List.replicate n 0`.
-/

/-- Apply a list of `(position, value)` writes to a buffer in order,
one `List.set` per write, mirroring sequential indexed assignments on a
JS typed array (writes at out-of-range positions have no effect, and in
the embedded code every write is in range). -/
def listWrites (ws : List (Nat × Nat)) (init : List Nat) : List Nat :=
  ws.foldl (fun res w => res.set w.1 w.2) init

/-! ### The element-shuffle codec

Faithful to `ShuffleCodec` in the codec-registration module: with
`numElems = ⌊n / elemSize⌋`, `encode` writes
`result[j*numElems + i] = data[i*elemSize + j]` and `decode` writes
`result[i*elemSize + j] = data[j*numElems + i]` for `i < numElems`,
`j < elemSize`; both then copy the remaining `n % elemSize` bytes
verbatim. The output buffer starts zero-filled like `new Uint8Array(n)`.
-/

namespace ShuffleCodec

/-- The shuffle filter's `encode`. -/
def encode (elemSize : Nat) (data : List Nat) : List Nat :=
  let n := data.length
  let numElems := n / elemSize
  listWrites
    (((List.range numElems).flatMap fun i =>
        (List.range elemSize).map fun j =>
          (j * numElems + i, data.getD (i * elemSize + j) 0)) ++
      ((List.range (n % elemSize)).map fun i =>
        (numElems * elemSize + i, data.getD (numElems * elemSize + i) 0)))
    (List.replicate n 0)

/-- The shuffle filter's `decode` (the byte-transposition inverse). -/
def decode (elemSize : Nat) (data : List Nat) : List Nat :=
  let n := data.length
  let numElems := n / elemSize
  listWrites
    (((List.range numElems).flatMap fun i =>
        (List.range elemSize).map fun j =>
          (i * elemSize + j, data.getD (j * numElems + i) 0)) ++
      ((List.range (n % elemSize)).map fun i =>
        (numElems * elemSize + i, data.getD (numElems * elemSize + i) 0)))
    (List.replicate n 0)

end ShuffleCodec

/-! ### The CF time codec

Faithful to the `cftime` module: units-string parsing (the anchored
regular expressions are hand-compiled to `List Char` matchers, with the
case-insensitive flag modelled by lowercasing the input), calendar
normalization, calendar-aware date arithmetic, and year-based index
resolution.

Two kernel-friendly rational helpers replace Mathlib's stuck-in-the-kernel
operations: `qmul` is rational multiplication (`qmul_eq_mul` below) and
`floorQ` is `Int.floor` (`floorQ_eq_floor` below). JS `Math.floor` on the
exact product is `floorQ (qmul _ _)`.
-/

namespace CFTime

/-- Rational multiplication via `mkRat` (equal to `*`, see `qmul_eq_mul`). -/
def qmul (a b : ℚ) : ℚ := mkRat (a.num * b.num) (a.den * b.den)

/-- `Math.floor` on an exact rational (equal to `⌊·⌋`, see `floorQ_eq_floor`). -/
def floorQ (q : ℚ) : Int := q.num.fdiv q.den

/-- The source's `Calendar` string union, as an inductive type:
`"standard" | "gregorian" | "proleptic_gregorian" | "julian" | "365_day"
| "noleap" | "360_day"`. -/
inductive Calendar where
  | standard
  | gregorian
  | prolepticGregorian
  | julian
  | day365
  | noleap
  | day360
deriving DecidableEq, Repr

/-- `TimeEncoding`: unit-to-days multiplier, epoch components and
normalised calendar. -/
structure TimeEncoding where
  toDays : ℚ
  epochYear : Int
  epochMonth : Int
  epochDay : Int
  calendar : Calendar
deriving DecidableEq, Repr

/-- Result of `parseTimeUnits`: a `TimeEncoding` or the `"packed_date"`
sentinel (the `null` case is `Option.none` at the call site). -/
inductive ParsedUnits where
  | encoding (enc : TimeEncoding)
  | packedDate
deriving DecidableEq, Repr

/-- `NOLEAP_DAYS`, also the source's `std` month table (the two arrays in
the source hold identical values). -/
def monthDays : List Int := [31, 28, 31, 30, 31, 30, 31, 31, 30, 31, 30, 31]

/-- Gregorian leap-year rule; JS `%` and Lean `Int.emod` agree on the
`== 0` tests. -/
def isLeapYear (y : Int) : Bool :=
  (y % 4 == 0 && y % 100 != 0) || y % 400 == 0

/-- `daysInMonth(year, month, cal)`. -/
def daysInMonth (year month : Int) (cal : Calendar) : Int :=
  match cal with
  | .day360 => 30
  | .day365 | .noleap => monthDays.getD (month - 1).toNat 0
  | _ =>
    if month == 2 && isLeapYear year then 29
    else monthDays.getD (month - 1).toNat 0

/-- The inner `while (d < 1)` month-borrowing loop of `addDaysToDate`
(fuel-indexed; each iteration increases `d` by at least 28, so the fuel
passed by `addDaysToDate` is never exhausted). -/
def borrowLoop (cal : Calendar) : Nat → Int → Int → Int → Int × Int × Int
  | 0, y, m, d => (y, m, d)
  | fuel + 1, y, m, d =>
    if d < 1 then
      let m' := m - 1
      let ym : Int × Int := if m' < 1 then (y - 1, 12) else (y, m')
      borrowLoop cal fuel ym.1 ym.2 (d + daysInMonth ym.1 ym.2 cal)
    else (y, m, d)

/-- The `while (remaining > 0)` month-advancing loop of `addDaysToDate`
(fuel-indexed; after the first iteration `remaining` strictly decreases,
so the fuel passed by `addDaysToDate` is never exhausted). -/
def advanceLoop (cal : Calendar) : Nat → Int → Int → Int → Int → Int × Int × Int
  | 0, y, m, d, _ => (y, m, d)
  | fuel + 1, y, m, d, remaining =>
    if remaining > 0 then
      let dim := daysInMonth y m cal
      let daysLeft := dim - d
      if remaining ≤ daysLeft then (y, m, d + remaining)
      else
        let ym : Int × Int := if m + 1 > 12 then (y + 1, 1) else (y, m + 1)
        advanceLoop cal fuel ym.1 ym.2 1 (remaining - (daysLeft + 1))
    else (y, m, d)

/-- `addDaysToDate`: add `⌊totalDays⌋` days to an epoch date. The source
delegates the standard-family calendars to JS `Date` UTC arithmetic and
walks months manually for the fixed-length calendars; adding the floored
day count month-by-month with the calendar's `daysInMonth` is exactly
that arithmetic in both cases (JS `Date` performs the same
proleptic-Gregorian normalisation). -/
def addDaysToDate (year month day : Int) (totalDays : ℚ) (cal : Calendar) :
    Int × Int × Int :=
  let remaining : Int := floorQ totalDays
  if remaining < 0 then
    let d0 := day + remaining
    borrowLoop cal ((1 - d0).toNat + 2) year month d0
  else
    advanceLoop cal (remaining.toNat + 100) year month day remaining

/-- Two-digit zero padding of day/month components. -/
def pad2 (n : Int) : String :=
  if n < 10 then "0" ++ toString n else toString n

/-- `decodeTimeValue(value, encoding)`: raw numeric offset to a
`YYYY-MM-DD` label. -/
def decodeTimeValue (value : ℚ) (encoding : ParsedUnits) : String :=
  match encoding with
  | .packedDate =>
    let dateInt : Int := floorQ value
    let y := dateInt.fdiv 10000
    let m := (dateInt.tmod 10000).fdiv 100
    let d := dateInt.tmod 100
    s!"{y}-{pad2 m}-{pad2 d}"
  | .encoding enc =>
    let totalDays := qmul value enc.toDays
    let ymd := addDaysToDate enc.epochYear enc.epochMonth enc.epochDay totalDays enc.calendar
    s!"{ymd.1}-{pad2 ymd.2.1}-{pad2 ymd.2.2}"

/-- `parseInt(s, 10)` on a run of decimal digits. -/
def parseDigits (cs : List Char) : Nat :=
  cs.foldl (fun a c => a * 10 + (c.toNat - 48)) 0

/-- Consume an exact literal prefix, returning the rest. -/
def dropLit : List Char → List Char → Option (List Char)
  | [], rest => some rest
  | _ :: _, [] => none
  | l :: lit, c :: cs => if c = l then dropLit lit cs else none

/-- Consume `\s+` (one or more whitespace characters). -/
def dropWs1 : List Char → Option (List Char)
  | c :: rest => if c.isWhitespace then some (rest.dropWhile Char.isWhitespace) else none
  | [] => none

/-- Consume `\d{lo,hi}` followed by a non-digit (the regexes' bounded
digit groups are each followed by a non-digit, so the greedy run length
must itself lie within the bounds). -/
def matchInt (lo hi : Nat) (cs : List Char) : Option (Nat × List Char) :=
  let ds := cs.takeWhile Char.isDigit
  if lo ≤ ds.length ∧ ds.length ≤ hi then some (parseDigits ds, cs.dropWhile Char.isDigit)
  else none

/-- `UNIT_TO_DAYS` in the alternation order of `UNITS_RE` (the five unit
words are mutually non-prefix, so ordered matching equals the regex
alternation). -/
def unitWords : List (String × ℚ) :=
  [("days", 1), ("hours", mkRat 1 24), ("minutes", mkRat 1 1440),
   ("seconds", mkRat 1 86400), ("milliseconds", mkRat 1 86400000)]

/-- The `(\d{1,4})-(\d{1,2})-(\d{1,2})` epoch part of `UNITS_RE`. -/
def matchEpoch (cs : List Char) : Option (Nat × Nat × Nat) := do
  let (yy, cs) ← matchInt 1 4 cs
  let cs ← dropLit ['-'] cs
  let (mm, cs) ← matchInt 1 2 cs
  let cs ← dropLit ['-'] cs
  let (dd, _) ← matchInt 1 2 cs
  pure (yy, mm, dd)

/-- `UNITS_RE` applied to a lowercased input. -/
def unitsMatch (cs : List Char) : Option (ℚ × Nat × Nat × Nat) :=
  unitWords.foldr
    (fun w acc =>
      match (do
        let rest ← dropLit w.1.data cs
        let rest ← dropWs1 rest
        let rest ← dropLit "since".data rest
        let rest ← dropWs1 rest
        let (yy, mm, dd) ← matchEpoch rest
        pure (w.2, yy, mm, dd) : Option (ℚ × Nat × Nat × Nat)) with
      | some r => some r
      | none => acc)
    none

/-- `PACKED_DATE_RE` (`/^day\s+as\s+%Y%m%d/i`) applied to a lowercased
input. -/
def packedMatch (cs : List Char) : Bool :=
  (do
    let rest ← dropLit "day".data cs
    let rest ← dropWs1 rest
    let rest ← dropLit "as".data rest
    let rest ← dropWs1 rest
    let _ ← dropLit "%y%m%d".data rest
    pure ()).isSome

/-- Character class `[a-z0-9_]` of `normalizeCalendar`'s strip step. -/
def keepCalChar (c : Char) : Bool :=
  (97 ≤ c.toNat && c.toNat ≤ 122) || (48 ≤ c.toNat && c.toNat ≤ 57) || c == '_'

/-- `normalizeCalendar`: missing/empty calendar defaults to the ISMIP6
no-leap calendar; otherwise lowercase, strip to `[a-z0-9_]` and match
the recognised names, anything else mapping to `standard`. -/
def normalizeCalendar (cal : Option String) : Calendar :=
  match cal with
  | none => .day365
  | some c =>
    if c = "" then .day365
    else
      let lc := c.data.map Char.toLower |>.filter keepCalChar
      if lc = "noleap".data || lc = "365_day".data then .day365
      else if lc = "360_day".data then .day360
      else if lc = "julian".data then .julian
      else .standard

/-- `parseTimeUnits(units, calendar)`: `null`/empty units give `none`;
the packed-date grammar wins over the `<unit> since <date>` grammar. -/
def parseTimeUnits (units calendar : Option String) : Option ParsedUnits :=
  match units with
  | none => none
  | some u =>
    if u = "" then none
    else
      let low := u.data.map Char.toLower
      if packedMatch low then some .packedDate
      else
        match unitsMatch low with
        | none => none
        | some (toDays, yy, mm, dd) =>
          some (.encoding
            { toDays := toDays, epochYear := yy, epochMonth := mm, epochDay := dd,
              calendar := normalizeCalendar calendar })

/-- `decodeTimeArray`. -/
def decodeTimeArray (values : List ℚ) (encoding : ParsedUnits) : List String :=
  values.map (fun v => decodeTimeValue v encoding)

/-- `label.split("-")` for the single-character separator. -/
def splitOnDash : List Char → List (List Char)
  | [] => [[]]
  | c :: rest =>
    if c = '-' then [] :: splitOnDash rest
    else
      match splitOnDash rest with
      | h :: t => (c :: h) :: t
      | [] => [[c]]

/-- The digit-run part of JS `parseInt(s, 10)`; `none` models `NaN`. -/
def jsParseIntDigits (cs : List Char) : Option Nat :=
  let ds := cs.takeWhile Char.isDigit
  if ds.isEmpty then none else some (parseDigits ds)

/-- JS `parseInt(s, 10)`: trim leading whitespace, optional sign, maximal
decimal-digit prefix; `none` models `NaN`. -/
def jsParseInt (s : List Char) : Option Int :=
  match s.dropWhile Char.isWhitespace with
  | '-' :: rest => (jsParseIntDigits rest).map (fun n => -(n : Int))
  | '+' :: rest => (jsParseIntDigits rest).map (fun n => (n : Int))
  | cs => (jsParseIntDigits cs).map (fun n => (n : Int))

/-- `yearFromLabel`: `parseInt(label.split("-")[0], 10)`. -/
def yearFromLabel (label : String) : Option Int :=
  jsParseInt ((splitOnDash label.data).headD [])

/-- The `lo` accumulation of `findIndexForYear` (`Infinity` start is
`none`; `if (y < lo) lo = y` over the valid years, NaN years skipped). -/
def loFold : Option Int → List (Option Int) → Option Int
  | acc, [] => acc
  | acc, none :: rest => loFold acc rest
  | none, some y :: rest => loFold (some y) rest
  | some a, some y :: rest => loFold (some (if y < a then y else a)) rest

/-- The `hi` accumulation of `findIndexForYear`. -/
def hiFold : Option Int → List (Option Int) → Option Int
  | acc, [] => acc
  | acc, none :: rest => hiFold acc rest
  | none, some y :: rest => hiFold (some y) rest
  | some a, some y :: rest => hiFold (some (if a < y then y else a)) rest

/-- The best-index loop of `findIndexForYear`: best distance so far
(`Infinity` start is `none`), remaining years, running index `i`, best
index `bi` (initially `0`); update on strict improvement only, so the
earliest minimiser wins. -/
def bestGo (t : Int) : Option Nat → List (Option Int) → Nat → Nat → Nat
  | _, [], _, bi => bi
  | bd, none :: rest, i, bi => bestGo t bd rest (i + 1) bi
  | none, some y :: rest, i, _ => bestGo t (some ((y - t).natAbs)) rest (i + 1) i
  | some b, some y :: rest, i, bi =>
    if (y - t).natAbs < b then bestGo t (some ((y - t).natAbs)) rest (i + 1) i
    else bestGo t (some b) rest (i + 1) bi

/-- `findIndexForYear(timeLabels, targetYear)`. -/
def findIndexForYear (timeLabels : List String) (targetYear : Int) : Option Nat :=
  if timeLabels.isEmpty then none
  else
    let years := timeLabels.map yearFromLabel
    match loFold none years, hiFold none years with
    | some lo, some hi =>
      if targetYear < lo ∨ hi < targetYear then none
      else some (bestGo targetYear none years 0 0)
    | _, _ => none

/-- `yearRange(allTimeLabels)`: union min/max of valid years. -/
def yearRange (allTimeLabels : List (Option (List String))) : Option (Int × Int) :=
  let years := allTimeLabels.flatMap fun labels? =>
    match labels? with
    | none => []
    | some labels => labels.map yearFromLabel
  match loFold none years, hiFold none years with
  | some lo, some hi => some (lo, hi)
  | _, _ => none

end CFTime

/-! ### The color-range estimator

Faithful to `computeAutoRange`: filter invalid/fill values, sort, take the
5th/95th percentile by index, and expand degenerate ranges. Values are
modelled as exact rationals, so the `isNaN`/`isFinite` float checks have no
counterpart (no `List ℚ` element is NaN or infinite); the remaining filter
conditions are kept verbatim. `qsub`/`qadd` are exact rational
subtraction/addition via `mkRat` (kernel-reducible, unlike Mathlib's `-`/`+`
on `ℚ`), and the percentile index `⌊n * 0.05⌋` is the exact `n * 5 / 100`
(the double-precision products `n * 0.05`, `n * 0.95` floor to the same
integers for any realistic `n`). Sorting uses a stable insertion sort, which
agrees with `Array.prototype.sort((a, b) => a - b)` on numeric values. -/

namespace ColorRange

def qabs (q : ℚ) : ℚ := if q < 0 then -q else q

def qsub (a b : ℚ) : ℚ := mkRat (a.num * b.den - b.num * a.den) (a.den * b.den)

def qadd (a b : ℚ) : ℚ := mkRat (a.num * b.den + b.num * a.den) (a.den * b.den)

def keepValue (fillValue : Option ℚ) (v : ℚ) : Bool :=
  !(qabs v > 10000000000) &&
    (match fillValue with
     | none => true
     | some fv => !(qabs (qsub v fv) < CFTime.qmul (qabs fv) (mkRat 1 1000000)))

def filterValid (values : List ℚ) (fillValue : Option ℚ) : List ℚ :=
  values.filter (keepValue fillValue)

def percentileIdx (n p : Nat) : Nat := n * p / 100

def computeAutoRange (values : List ℚ) (fillValue : Option ℚ) : ℚ × ℚ :=
  let allValidValues := filterValid values fillValue
  if allValidValues.isEmpty then (0, 1)
  else
    let sorted := allValidValues.insertionSort (· ≤ ·)
    let p5 := sorted.getD (percentileIdx allValidValues.length 5) 0
    let p95 := sorted.getD (percentileIdx allValidValues.length 95) 0
    if p5 = p95 then
      if p5 = 0 then (-1, 1)
      else
        let margin := CFTime.qmul (qabs p5) (mkRat 1 10)
        (qsub p5 margin, qadd p95 margin)
    else (p5, p95)

end ColorRange

/-! ### Hierarchy discovery

Faithful to `discoverHierarchy`: the store capability is a record of
`listChildren` (which may throw, modelled by `Except`) and the
shape-probing part of `zarr.open`. Probe failures inside `try`/`catch`
blocks degrade to "not a group"/"skip"; calls outside any `try` propagate
into the surrounding `Except`. The three `Store` values after the
algorithm are the concrete test stores used by the claim about depth
classification. -/

namespace Discovery

structure Store where
  listChildren : String → Except String (List String)
  openArrayShape : String → Except String (List Nat)

structure DiscoveryResult where
  models : List String
  experiments : List (String × List String)
  vars : List String
  hierarchyDepth : Nat
deriving DecidableEq, Repr

def coordNames : List String :=
  ["x", "y", "lat", "lon", "latitude", "longitude",
   "time", "t", "bnds", "bounds", "time_bnds", "time_bounds",
   "x_bnds", "y_bnds", "lat_bnds", "lon_bnds",
   "mapping", "crs", "spatial_ref"]

def lowerStr (s : String) : String := String.mk (s.data.map Char.toLower)

def isCoordName (nm : String) : Bool := coordNames.contains (lowerStr nm)

def joinPath (base child : String) : String :=
  if base = "" then child else base ++ "/" ++ child

def discoverHierarchy (store : Store) (groupPathOverride : Option String) :
    Except String DiscoveryResult := do
  let basePath :=
    match groupPathOverride with
    | some p => p
    | none => ""
  let rootChildren ← store.listChildren basePath
  if rootChildren.isEmpty then
    return ⟨[], [], [], 0⟩
  let testPath := joinPath basePath (rootChildren.headD "")
  let firstChildIsGroup :=
    match store.listChildren testPath with
    | .ok cs => !cs.isEmpty
    | .error _ => false
  if !firstChildIsGroup then
    return ⟨[], [], rootChildren.filter (fun nm => !isCoordName nm), 0⟩
  let firstGroupPath := testPath
  let secondLevelChildren ← store.listChildren firstGroupPath
  if secondLevelChildren.isEmpty then
    return ⟨[], [], [], 1⟩
  let testPath2 := firstGroupPath ++ "/" ++ secondLevelChildren.headD ""
  let secondChildIsGroup :=
    match store.listChildren testPath2 with
    | .ok cs => !cs.isEmpty
    | .error _ => false
  if !secondChildIsGroup then
    let vars := secondLevelChildren.filter (fun nm => !isCoordName nm)
    return ⟨[], [("_root", rootChildren)], vars, 1⟩
  let models := rootChildren
  let experiments ← models.mapM (fun model => do
    let modelExps ← store.listChildren (joinPath basePath model)
    pure (model, modelExps))
  let firstModel := models.headD ""
  let firstModelExps := (experiments.lookup firstModel).getD []
  let vars ←
    if firstModelExps.isEmpty then pure []
    else do
      let samplePath := joinPath basePath (firstModel ++ "/" ++ firstModelExps.headD "")
      let arrayNames ← store.listChildren samplePath
      let arrayNames := arrayNames.filter (fun nm => !isCoordName nm)
      pure (arrayNames.filter (fun name =>
        match store.openArrayShape (samplePath ++ "/" ++ name) with
        | .ok shape => decide (2 ≤ shape.length)
        | .error _ => false))
  return ⟨models, experiments, vars, 2⟩

def leafStoreEmpty : Store where
  listChildren := fun p =>
    if p = "" then .ok ["A"]
    else if p = "A" then .ok ["B"]
    else if p = "A/B" then .ok []
    else .error "node not found"
  openArrayShape := fun _ => .error "not an array"

def leafStoreFailing : Store where
  listChildren := fun p =>
    if p = "" then .ok ["A"]
    else if p = "A" then .ok ["B"]
    else .error "node not found"
  openArrayShape := fun _ => .error "not an array"

def ismipStore : Store where
  listChildren := fun p =>
    if p = "" then .ok ["modelX"]
    else if p = "modelX" then .ok ["expY"]
    else if p = "modelX/expY" then .ok ["var1", "var2", "x", "time"]
    else .error "node not found"
  openArrayShape := fun p =>
    if p = "modelX/expY/var1" then .ok [10, 12]
    else if p = "modelX/expY/var2" then .ok [5, 10, 12]
    else if p = "modelX/expY/x" then .ok [12]
    else if p = "modelX/expY/time" then .ok [5]
    else .error "node not found"

end Discovery

/-! ### The viewer state machine

Faithful to the `useViewerStore` module: per-panel and shared state, and
every state transition that touches the panel list. Asynchronous actions
(`initialize`, `setDataView`, `loadPanelData`, `loadAllPanels`) interact
with the store; their external results (discovery outcome, fetched data,
decoded labels) appear as parameters of the corresponding `Op`, and
`loadPanelData`'s three `set` calls are the three `load*` operations.
The module-level `panelIdCounter` is carried in the state; panel ids
`panel-<k>` are modelled by their counter value `k`. Rendering-only state
(hover position, view state, variable metadata) is outside the modelled
fragment. `resolveTimeIndex` is the time-index resolution step of
`loadPanelData` (all branches that do not year-match assign
`Math.min(timeIndex, maxTime)`, the value the variable is initialised
with). A label with an unparseable (NaN) year in `loadSuccess`'s
target-year derivation is outside the modelled fragment. -/

namespace Viewer

def resolveTimeIndex (timeIndex maxTime : Int) (targetYear : Option Int)
    (timeLabels : Option (List String)) : Option Int :=
  match targetYear, timeLabels with
  | some ty, some ls =>
    if 0 < ls.length then (CFTime.findIndexForYear ls ty).map Int.ofNat
    else some (min timeIndex maxTime)
  | some _, none => some (min timeIndex maxTime)
  | none, _ => some (min timeIndex maxTime)

structure GridConfig where
  width : Nat
  height : Nat
  cellSize : ℚ
  xMin : ℚ
  yMin : ℚ
  xMax : ℚ
  yMax : ℚ
deriving DecidableEq, Repr

def DEFAULT_GRID : GridConfig :=
  { width := 761, height := 761, cellSize := 8000,
    xMin := -3040000, yMin := -3040000, xMax := 3048000, yMax := 3048000 }

structure Panel where
  id : Nat
  selectedModel : Option String
  selectedExperiment : Option String
  currentData : Option (List ℚ)
  dataShape : Option (List Nat)
  isLoading : Bool
  error : Option String
  maxTimeIndex : Nat
  groupMetadata : Option (List (String × String))
  timeLabels : Option (List String)
  resolvedTimeIndex : Option Int
  allNaN : Bool
deriving DecidableEq, Repr

def createEmptyPanel (counter : Nat) : Panel × Nat :=
  ({ id := counter + 1, selectedModel := none, selectedExperiment := none,
     currentData := none, dataShape := none, isLoading := false, error := none,
     maxTimeIndex := 0, groupMetadata := none, timeLabels := none,
     resolvedTimeIndex := some 0, allNaN := false }, counter + 1)

structure EmbedConfig where
  model : Option String
  experiment : Option String
  varName : Option String
  time : Option Int
  colormap : Option String
  vminOverride : Option ℚ
  vmaxOverride : Option ℚ
  panelConfigs : List (String × String)
deriving DecidableEq, Repr

structure ViewerState where
  isInitializing : Bool
  initError : Option String
  storeOpen : Bool
  dataView : String
  gridConfig : GridConfig
  models : List String
  experiments : List (String × List String)
  vars : List String
  hierarchyDepth : Nat
  fillValue : Option ℚ
  panels : List Panel
  activePanelId : Option Nat
  selectedVariable : Option String
  timeIndex : Int
  targetYear : Option Int
  colormap : String
  vmin : ℚ
  vmax : ℚ
  autoRange : Bool
  panelIdCounter : Nat
deriving DecidableEq, Repr

def initialState : ViewerState :=
  { isInitializing := false, initError := none, storeOpen := false,
    dataView := "combined", gridConfig := DEFAULT_GRID,
    models := [], experiments := [], vars := [], hierarchyDepth := 2,
    fillValue := none, panels := [(createEmptyPanel 0).1], activePanelId := none,
    selectedVariable := none, timeIndex := 0, targetYear := none,
    colormap := "viridis", vmin := 0, vmax := 4000, autoRange := true,
    panelIdCounter := 1 }

def mkPanelsFromConfigs : List (String × String) → Nat → List Panel × Nat
  | [], c => ([], c)
  | (m, e) :: rest, c =>
    let pc := createEmptyPanel c
    let other := mkPanelsFromConfigs rest pc.2
    ({ pc.1 with selectedModel := some m, selectedExperiment := some e } :: other.1,
      other.2)

def setColorRange (s : ViewerState) (vmin vmax : ℚ) : ViewerState :=
  { s with vmin := vmin, vmax := vmax, autoRange := false }

def setAutoRange (s : ViewerState) (auto : Bool) : ViewerState :=
  { s with autoRange := auto }

def setColormap (s : ViewerState) (c : String) : ViewerState :=
  { s with colormap := c }

def setSelectedVariable (s : ViewerState) (v : String) : ViewerState :=
  { s with selectedVariable := some v }

def setActivePanel (s : ViewerState) (pid : Nat) : ViewerState :=
  { s with activePanelId := some pid }

def initPanels (cfg : EmbedConfig) (d : Discovery.DiscoveryResult) (c : Nat) :
    List Panel × Nat :=
  if !cfg.panelConfigs.isEmpty then
    mkPanelsFromConfigs cfg.panelConfigs c
  else
    match cfg.model with
    | some m =>
      let pc0 := createEmptyPanel c
      ([{ pc0.1 with
          selectedModel := some m
          selectedExperiment :=
            match cfg.experiment with
            | some e => some e
            | none => ((d.experiments.lookup m).getD []).head? }], pc0.2)
    | none =>
      let pc0 := createEmptyPanel c
      ([pc0.1], pc0.2)

def initializeOp (s : ViewerState) (cfg : EmbedConfig)
    (disc : Except String (Discovery.DiscoveryResult × GridConfig × Option ℚ)) :
    ViewerState :=
  let s0 := { s with isInitializing := true, initError := none }
  match disc with
  | .error msg => { s0 with initError := some msg, isInitializing := false }
  | .ok (d, grid, fv) =>
    let pc := initPanels cfg d s0.panelIdCounter
    let defaultVariable := d.vars.head?
    { s0 with
      storeOpen := true
      models := d.models
      experiments := d.experiments
      vars := d.vars
      hierarchyDepth := d.hierarchyDepth
      gridConfig := grid
      fillValue := fv
      selectedVariable :=
        match cfg.varName with
        | some v => if d.vars.contains v then some v else defaultVariable
        | none => defaultVariable
      panels := pc.1
      activePanelId := pc.1.head?.map Panel.id
      isInitializing := false
      timeIndex := cfg.time.getD s0.timeIndex
      colormap := cfg.colormap.getD s0.colormap
      vmin := cfg.vminOverride.getD s0.vmin
      vmax := cfg.vmaxOverride.getD s0.vmax
      autoRange :=
        if cfg.vminOverride.isSome || cfg.vmaxOverride.isSome then false else s0.autoRange
      panelIdCounter := pc.2 }

def panelValidInView (d : Discovery.DiscoveryResult) (p : Panel) : Bool :=
  match p.selectedModel with
  | none => true
  | some m =>
    if !(d.models.contains m) then false
    else
      match p.selectedExperiment, d.experiments.lookup m with
      | some e, some exps => exps.contains e
      | _, _ => true

def resetPanelForView (p : Panel) : Panel :=
  { p with
    currentData := none
    dataShape := none
    isLoading := false
    timeLabels := none
    resolvedTimeIndex := none }

def nextViewPanels (d : Discovery.DiscoveryResult) (panels : List Panel) (c : Nat) :
    List Panel × Nat :=
  if !((panels.filter (panelValidInView d)).map resetPanelForView).isEmpty then
    ((panels.filter (panelValidInView d)).map resetPanelForView, c)
  else
    ([(createEmptyPanel c).1], (createEmptyPanel c).2)

def setDataViewOp (s : ViewerState) (view : String)
    (disc : Except String (Discovery.DiscoveryResult × GridConfig × Option ℚ)) :
    ViewerState :=
  if !s.storeOpen then s
  else
    let s0 := { s with isInitializing := true, dataView := view }
    match disc with
    | .error msg => { s0 with initError := some msg, isInitializing := false }
    | .ok (d, grid, fv) =>
      let np := nextViewPanels d s0.panels s0.panelIdCounter
      { s0 with
        models := d.models
        experiments := d.experiments
        vars := d.vars
        hierarchyDepth := d.hierarchyDepth
        gridConfig := grid
        fillValue := fv
        selectedVariable := d.vars.head?
        panels := np.1
        activePanelId := np.1.head?.map Panel.id
        timeIndex := 0
        targetYear := none
        isInitializing := false
        panelIdCounter := np.2 }

def addPanelOp (s : ViewerState) : ViewerState :=
  let pc := createEmptyPanel s.panelIdCounter
  let p :=
    match s.models.head? with
    | some m =>
      let modelExps := (s.experiments.lookup m).getD []
      { pc.1 with selectedModel := some m, selectedExperiment := modelExps.head? }
    | none => pc.1
  { s with panels := s.panels ++ [p], activePanelId := some p.id, panelIdCounter := pc.2 }

def removePanelOp (s : ViewerState) (pid : Nat) : ViewerState :=
  if s.panels.length ≤ 1 then s
  else
    let newPanels := s.panels.filter (fun p => p.id ≠ pid)
    let newActiveId :=
      if s.activePanelId = some pid then newPanels.head?.map Panel.id
      else s.activePanelId
    { s with panels := newPanels, activePanelId := newActiveId }

def modelChangePanel (experiments : List (String × List String)) (pid : Nat)
    (model : String) (p : Panel) : Panel :=
  if p.id ≠ pid then p
  else
    let modelExps := (experiments.lookup model).getD []
    let newExp :=
      if modelExps.contains (p.selectedExperiment.getD "") then p.selectedExperiment
      else modelExps.head?
    { p with
      selectedModel := some model
      selectedExperiment := newExp
      currentData := none
      dataShape := none
      timeLabels := none
      groupMetadata := none
      resolvedTimeIndex := none
      allNaN := false
      error := none }

def setPanelModelOp (s : ViewerState) (pid : Nat) (model : String) : ViewerState :=
  { s with panels := s.panels.map (modelChangePanel s.experiments pid model) }

def experimentChangePanel (pid : Nat) (experiment : String) (p : Panel) : Panel :=
  if p.id = pid then
    { p with
      selectedExperiment := some experiment
      currentData := none
      dataShape := none
      timeLabels := none
      groupMetadata := none
      resolvedTimeIndex := none
      allNaN := false
      error := none }
  else p

def setPanelExperimentOp (s : ViewerState) (pid : Nat) (experiment : String) :
    ViewerState :=
  { s with panels := s.panels.map (experimentChangePanel pid experiment) }

def timeAlignPanel (targetYear : Int) (p : Panel) : Panel :=
  match p.timeLabels with
  | none =>
    if 0 < p.maxTimeIndex ∧ ¬(p.resolvedTimeIndex = none) then
      { p with resolvedTimeIndex := none }
    else p
  | some ls =>
    if ls.isEmpty then
      if 0 < p.maxTimeIndex ∧ ¬(p.resolvedTimeIndex = none) then
        { p with resolvedTimeIndex := none }
      else p
    else
      let resolved := (CFTime.findIndexForYear ls targetYear).map Int.ofNat
      if ¬(resolved = p.resolvedTimeIndex) then { p with resolvedTimeIndex := resolved }
      else p

def setTimeIndexOp (s : ViewerState) (index : Int) : ViewerState :=
  match CFTime.yearRange (s.panels.map Panel.timeLabels) with
  | none => { s with timeIndex := index }
  | some (minYear, _) =>
    let targetYear := minYear + index
    { s with
      timeIndex := index
      targetYear := some targetYear
      panels := s.panels.map (timeAlignPanel targetYear) }

def loadStartPanel (pid : Nat) (p : Panel) : Panel :=
  if p.id = pid then { p with isLoading := true, error := none } else p

def loadStartOp (s : ViewerState) (pid : Nat) : ViewerState :=
  { s with panels := s.panels.map (loadStartPanel pid) }

def markLoadingPanel (p : Panel) : Panel :=
  if p.selectedModel.isSome && p.selectedExperiment.isSome then
    { p with isLoading := true, error := none }
  else p

def markAllLoadingOp (s : ViewerState) : ViewerState :=
  { s with panels := s.panels.map markLoadingPanel }

def outOfRangePanel (pid : Nat) (maxTime : Nat) (gm : Option (List (String × String)))
    (tl : Option (List String)) (p : Panel) : Panel :=
  if p.id = pid then
    { p with
      currentData := none
      dataShape := none
      maxTimeIndex := maxTime
      isLoading := false
      groupMetadata := gm
      timeLabels := tl
      resolvedTimeIndex := none
      allNaN := false }
  else p

def loadOutOfRangeOp (s : ViewerState) (pid : Nat) (maxTime : Nat)
    (gm : Option (List (String × String))) (tl : Option (List String)) : ViewerState :=
  { s with panels := s.panels.map (outOfRangePanel pid maxTime gm tl) }

def successPanel (pid : Nat) (data : List ℚ) (shape : List Nat) (maxTime : Nat)
    (gm : Option (List (String × String))) (tl : Option (List String))
    (rti : Nat) (aN : Bool) (p : Panel) : Panel :=
  if p.id = pid then
    { p with
      currentData := some data
      dataShape := some shape
      maxTimeIndex := maxTime
      isLoading := false
      groupMetadata := gm
      timeLabels := tl
      resolvedTimeIndex := some (rti : Int)
      allNaN := aN }
  else p

def loadSuccessExtras (targetYear : Option Int) (tl : Option (List String)) (rti : Nat)
    (allLabels : List (Option (List String))) (timeIndex : Int) : Option Int × Int :=
  if targetYear = none then
    match tl with
    | some ls =>
      let lbl := ls.getD rti ""
      if ¬(lbl = "") then
        match CFTime.yearFromLabel lbl with
        | some yr =>
          match CFTime.yearRange allLabels with
          | some (minY, _) => (some yr, yr - minY)
          | none => (some yr, timeIndex)
        | none => (targetYear, timeIndex)
      else (targetYear, timeIndex)
    | none => (targetYear, timeIndex)
  else (targetYear, timeIndex)

def loadSuccessOp (s : ViewerState) (pid : Nat) (data : List ℚ) (shape : List Nat)
    (maxTime : Nat) (gm : Option (List (String × String))) (tl : Option (List String))
    (rti : Nat) (aN : Bool) (fv : Option ℚ) : ViewerState :=
  let newPanels := s.panels.map (successPanel pid data shape maxTime gm tl rti aN)
  let extras := loadSuccessExtras s.targetYear tl rti (newPanels.map Panel.timeLabels)
    s.timeIndex
  { s with fillValue := fv, panels := newPanels,
           targetYear := extras.1, timeIndex := extras.2 }

def errorPanel (pid : Nat) (msg : String) (p : Panel) : Panel :=
  if p.id = pid then
    { p with
      currentData := none
      dataShape := none
      error := some msg
      isLoading := false
      allNaN := false }
  else p

def loadErrorOp (s : ViewerState) (pid : Nat) (msg : String) : ViewerState :=
  { s with panels := s.panels.map (errorPanel pid msg) }

inductive Op where
  | initViewer (cfg : EmbedConfig)
      (disc : Except String (Discovery.DiscoveryResult × GridConfig × Option ℚ))
  | setDataView (view : String)
      (disc : Except String (Discovery.DiscoveryResult × GridConfig × Option ℚ))
  | addPanel
  | removePanel (pid : Nat)
  | setActivePanel (pid : Nat)
  | setPanelModel (pid : Nat) (model : String)
  | setPanelExperiment (pid : Nat) (experiment : String)
  | setSelectedVariable (v : String)
  | setTimeIndex (i : Int)
  | setColormap (c : String)
  | setColorRange (vmin vmax : ℚ)
  | setAutoRange (b : Bool)
  | markAllLoading
  | loadStart (pid : Nat)
  | loadOutOfRange (pid : Nat) (maxTime : Nat)
      (gm : Option (List (String × String))) (tl : Option (List String))
  | loadSuccess (pid : Nat) (data : List ℚ) (shape : List Nat) (maxTime : Nat)
      (gm : Option (List (String × String))) (tl : Option (List String))
      (rti : Nat) (aN : Bool) (fv : Option ℚ)
  | loadError (pid : Nat) (msg : String)

def step (s : ViewerState) : Op → ViewerState
  | .initViewer cfg disc => initializeOp s cfg disc
  | .setDataView view disc => setDataViewOp s view disc
  | .addPanel => addPanelOp s
  | .removePanel pid => removePanelOp s pid
  | .setActivePanel pid => setActivePanel s pid
  | .setPanelModel pid m => setPanelModelOp s pid m
  | .setPanelExperiment pid e => setPanelExperimentOp s pid e
  | .setSelectedVariable v => setSelectedVariable s v
  | .setTimeIndex i => setTimeIndexOp s i
  | .setColormap c => setColormap s c
  | .setColorRange a b => setColorRange s a b
  | .setAutoRange b => setAutoRange s b
  | .markAllLoading => markAllLoadingOp s
  | .loadStart pid => loadStartOp s pid
  | .loadOutOfRange pid mt gm tl => loadOutOfRangeOp s pid mt gm tl
  | .loadSuccess pid d sh mt gm tl rti aN fv => loadSuccessOp s pid d sh mt gm tl rti aN fv
  | .loadError pid msg => loadErrorOp s pid msg

def PanelsWF (s : ViewerState) : Prop :=
  s.panels ≠ []
  ∧ (s.panels.map Panel.id).Nodup
  ∧ ∀ p ∈ s.panels, p.id ≤ s.panelIdCounter

end Viewer

/-! ## Theorems -/

/-! ### Buffer-write lemmas -/

theorem listWrites_nil (init : List Nat) : listWrites [] init = init := rfl

theorem listWrites_cons (w : Nat × Nat) (ws : List (Nat × Nat)) (init : List Nat) :
    listWrites (w :: ws) init = listWrites ws (init.set w.1 w.2) := rfl

theorem length_listWrites (ws : List (Nat × Nat)) (init : List Nat) :
    (listWrites ws init).length = init.length := by
  induction ws generalizing init with
  | nil => rfl
  | cons w ws ih => rw [listWrites_cons, ih, List.length_set]

theorem listWrites_getElem?_not_mem {k : Nat} (ws : List (Nat × Nat)) (init : List Nat)
    (hk : k ∉ ws.map Prod.fst) :
    (listWrites ws init)[k]? = init[k]? := by
  induction ws generalizing init with
  | nil => rfl
  | cons w ws ih =>
    simp only [List.map_cons, List.mem_cons, not_or] at hk
    rw [listWrites_cons, ih (init.set w.1 w.2) hk.2, List.getElem?_set_ne (Ne.symm hk.1)]

theorem listWrites_getElem?_mem {k v : Nat} (ws : List (Nat × Nat)) (init : List Nat)
    (hnd : (ws.map Prod.fst).Nodup) (hm : (k, v) ∈ ws) (hk : k < init.length) :
    (listWrites ws init)[k]? = some v := by
  induction ws generalizing init with
  | nil => cases hm
  | cons w ws ih =>
    simp only [List.map_cons, List.nodup_cons] at hnd
    rw [listWrites_cons]
    rcases List.mem_cons.mp hm with heq | hmem
    · subst heq
      rw [listWrites_getElem?_not_mem ws _ hnd.1]
      exact List.getElem?_set_self hk
    · exact ih (init.set w.1 w.2) hnd.2 hmem (by rw [List.length_set]; exact hk)

/-! ### Shuffle codec lemmas -/

namespace ShuffleCodec

theorem length_encode (e : Nat) (data : List Nat) :
    (encode e data).length = data.length := by
  rw [encode, length_listWrites, List.length_replicate]

theorem length_decode (e : Nat) (data : List Nat) :
    (decode e data).length = data.length := by
  rw [decode, length_listWrites, List.length_replicate]

/-- Positions of the form `b*e + a` with `a < e` decompose uniquely. -/
theorem key_inj {e : Nat} {i j i' j' : Nat} (hj : j < e) (hj' : j' < e)
    (h : i * e + j = i' * e + j') : i = i' ∧ j = j' := by
  have he : 0 < e := by omega
  have e1 : ∀ a b : Nat, a < e → (b * e + a) / e = b := fun a b ha => by
    rw [Nat.add_comm, Nat.add_mul_div_right _ _ he, Nat.div_eq_of_lt ha, Nat.zero_add]
  have e2 : ∀ a b : Nat, a < e → (b * e + a) % e = a := fun a b ha => by
    rw [Nat.add_comm, Nat.add_mul_mod_self_right, Nat.mod_eq_of_lt ha]
  exact ⟨by rw [← e1 j i hj, h, e1 j' i' hj'], by rw [← e2 j i hj, h, e2 j' i' hj']⟩

/-- The positions written by the shuffle loops are pairwise distinct:
the main double loop writes `key i j` (injective, landing below `n*e`)
and the remainder loop writes `n*e + i`. -/
theorem keys_nodup (n e rem : Nat) (key : Nat → Nat → Nat)
    (hinj : ∀ i j i' j', i < n → i' < n → j < e → j' < e → key i j = key i' j' → i = i' ∧ j = j')
    (hlt : ∀ i j, i < n → j < e → key i j < n * e) :
    (((List.range n).flatMap fun i => (List.range e).map fun j => key i j) ++
      (List.range rem).map fun i => n * e + i).Nodup := by
  apply List.Nodup.append
  · rw [List.nodup_flatMap]
    constructor
    · intro i hi
      rw [List.mem_range] at hi
      exact (List.nodup_range e).map_on fun j hj j' hj' hk =>
        (hinj i j i j' hi hi (List.mem_range.mp hj) (List.mem_range.mp hj') hk).2
    · have : List.Pairwise (· ≠ ·) (List.range n) :=
        (List.pairwise_lt_range n).imp Nat.ne_of_lt
      refine this.imp_of_mem fun {a b} ha hb hne x hxa hxb => ?_
      rw [List.mem_range] at ha hb
      rcases List.mem_map.mp hxa with ⟨j, hj, rfl⟩
      rcases List.mem_map.mp hxb with ⟨j', hj', hk⟩
      exact hne (hinj b j' a j hb ha (List.mem_range.mp hj') (List.mem_range.mp hj) hk).1.symm
  · exact (List.nodup_range rem).map fun a b h => by omega
  · intro x hx hx'
    rcases List.mem_flatMap.mp hx with ⟨i, hi, hxm⟩
    rcases List.mem_map.mp hxm with ⟨j, hj, rfl⟩
    rcases List.mem_map.mp hx' with ⟨i', _, hk⟩
    have := hlt i j (List.mem_range.mp hi) (List.mem_range.mp hj)
    omega

theorem key_lt_main {e : Nat} (q : Nat) {i j : Nat} (hi : i < q) (hj : j < e) :
    i * e + j < q * e :=
  calc i * e + j < i * e + e := Nat.add_lt_add_left hj _
    _ = (i + 1) * e := by ring
    _ ≤ q * e := Nat.mul_le_mul_right e hi

theorem decode_getD_main (e : Nat) (data : List Nat) {i j : Nat}
    (hi : i < data.length / e) (hj : j < e) :
    (decode e data).getD (i * e + j) 0 = data.getD (j * (data.length / e) + i) 0 := by
  rw [decode, List.getD_eq_getElem?_getD,
    listWrites_getElem?_mem _ _ ?nodup ?mem ?bound]
  · rfl
  case nodup =>
    rw [List.map_append, List.map_flatMap]
    simp only [List.map_map]
    refine keys_nodup (data.length / e) e (data.length % e) (fun a b => a * e + b)
      (fun a b a' b' _ _ hb hb' h => key_inj hb hb' h)
      (fun a b ha hb => key_lt_main _ ha hb)
  case mem =>
    refine List.mem_append_left _ (List.mem_flatMap.mpr ⟨i, List.mem_range.mpr hi, ?_⟩)
    exact List.mem_map.mpr ⟨j, List.mem_range.mpr hj, rfl⟩
  case bound =>
    rw [List.length_replicate]
    exact Nat.lt_of_lt_of_le (key_lt_main _ hi hj) (Nat.div_mul_le_self _ _)

theorem decode_getD_trailing (e : Nat) (data : List Nat) {k : Nat}
    (h1 : (data.length / e) * e ≤ k) (h2 : k < data.length) :
    (decode e data).getD k 0 = data.getD k 0 := by
  have hqr : e * (data.length / e) + data.length % e = data.length := Nat.div_add_mod _ _
  rw [Nat.mul_comm] at hqr
  obtain ⟨i, hik, hir⟩ : ∃ i, k = (data.length / e) * e + i ∧ i < data.length % e :=
    ⟨k - (data.length / e) * e, by omega, by omega⟩
  subst hik
  rw [decode, List.getD_eq_getElem?_getD,
    listWrites_getElem?_mem _ _ ?nodup ?mem ?bound]
  · rfl
  case nodup =>
    rw [List.map_append, List.map_flatMap]
    simp only [List.map_map]
    exact keys_nodup (data.length / e) e (data.length % e) (fun a b => a * e + b)
      (fun a b a' b' _ _ hb hb' h => key_inj hb hb' h)
      (fun a b ha hb => key_lt_main _ ha hb)
  case mem =>
    exact List.mem_append_right _
      (List.mem_map.mpr ⟨i, List.mem_range.mpr hir, rfl⟩)
  case bound =>
    rw [List.length_replicate]; omega

theorem encode_getD_main (e : Nat) (data : List Nat) {i j : Nat}
    (hi : i < data.length / e) (hj : j < e) :
    (encode e data).getD (j * (data.length / e) + i) 0 = data.getD (i * e + j) 0 := by
  rw [encode, List.getD_eq_getElem?_getD,
    listWrites_getElem?_mem _ _ ?nodup ?mem ?bound]
  · rfl
  case nodup =>
    rw [List.map_append, List.map_flatMap]
    simp only [List.map_map]
    refine keys_nodup (data.length / e) e (data.length % e)
      (fun a b => b * (data.length / e) + a) ?_ ?_
    · intro a b a' b' ha ha' _ _ h
      exact And.symm (key_inj ha ha' h)
    · intro a b ha hb
      rw [Nat.mul_comm (data.length / e) e]
      exact key_lt_main _ hb ha
  case mem =>
    refine List.mem_append_left _ (List.mem_flatMap.mpr ⟨i, List.mem_range.mpr hi, ?_⟩)
    exact List.mem_map.mpr ⟨j, List.mem_range.mpr hj, rfl⟩
  case bound =>
    rw [List.length_replicate]
    have h1 : j * (data.length / e) + i < e * (data.length / e) := key_lt_main e hj hi
    have h2 : e * (data.length / e) ≤ data.length := by
      rw [Nat.mul_comm]; exact Nat.div_mul_le_self _ _
    omega

theorem encode_getD_trailing (e : Nat) (data : List Nat) {k : Nat}
    (h1 : (data.length / e) * e ≤ k) (h2 : k < data.length) :
    (encode e data).getD k 0 = data.getD k 0 := by
  have hqr : e * (data.length / e) + data.length % e = data.length := Nat.div_add_mod _ _
  rw [Nat.mul_comm] at hqr
  obtain ⟨i, hik, hir⟩ : ∃ i, k = (data.length / e) * e + i ∧ i < data.length % e :=
    ⟨k - (data.length / e) * e, by omega, by omega⟩
  subst hik
  rw [encode, List.getD_eq_getElem?_getD,
    listWrites_getElem?_mem _ _ ?nodup ?mem ?bound]
  · rfl
  case nodup =>
    rw [List.map_append, List.map_flatMap]
    simp only [List.map_map]
    refine keys_nodup (data.length / e) e (data.length % e)
      (fun a b => b * (data.length / e) + a) ?_ ?_
    · intro a b a' b' ha ha' _ _ h
      exact And.symm (key_inj ha ha' h)
    · intro a b ha hb
      rw [Nat.mul_comm (data.length / e) e]
      exact key_lt_main _ hb ha
  case mem =>
    exact List.mem_append_right _
      (List.mem_map.mpr ⟨i, List.mem_range.mpr hir, rfl⟩)
  case bound =>
    rw [List.length_replicate]; omega

/-- `decode ∘ encode = id` on byte buffers, for any element size `e ≥ 1`. -/
theorem decode_encode (e : Nat) (he : 1 ≤ e) (data : List Nat) :
    decode e (encode e data) = data := by
  have hlen : (encode e data).length = data.length := length_encode e data
  apply List.ext_getElem (by rw [length_decode, hlen])
  intro k hk1 hk2
  have hkd : (decode e (encode e data)).getD k 0 = data.getD k 0 := by
    by_cases hmain : k < (data.length / e) * e
    · have hi : k / e < data.length / e := by
        rw [Nat.div_lt_iff_lt_mul (by omega)]
        exact hmain
      have hdk : (k / e) * e + k % e = k := by
        rw [Nat.mul_comm]; exact Nat.div_add_mod k e
      have hj : k % e < e := Nat.mod_lt _ (by omega)
      calc (decode e (encode e data)).getD k 0
          = (decode e (encode e data)).getD ((k / e) * e + k % e) 0 := by rw [hdk]
        _ = (encode e data).getD ((k % e) * ((encode e data).length / e) + k / e) 0 := by
            exact decode_getD_main e (encode e data) (by rw [hlen]; exact hi) hj
        _ = (encode e data).getD ((k % e) * (data.length / e) + k / e) 0 := by rw [hlen]
        _ = data.getD ((k / e) * e + k % e) 0 := encode_getD_main e data hi hj
        _ = data.getD k 0 := by rw [hdk]
    · have h1 : (data.length / e) * e ≤ k := by omega
      calc (decode e (encode e data)).getD k 0
          = (encode e data).getD k 0 := by
            exact decode_getD_trailing e (encode e data)
              (by rw [hlen]; exact h1) (by rw [hlen]; exact hk2)
        _ = data.getD k 0 := encode_getD_trailing e data h1 hk2
  rw [List.getD_eq_getElem?_getD, List.getD_eq_getElem?_getD] at hkd
  rw [List.getElem?_eq_getElem hk1, List.getElem?_eq_getElem hk2] at hkd
  simpa using hkd

end ShuffleCodec


/-! ### Viewer state machine lemmas -/

namespace Viewer

theorem map_id_preserving (panels : List Panel) (counter : Nat) (f : Panel → Panel)
    (hf : ∀ p, (f p).id = p.id)
    (h1 : panels ≠ []) (h2 : (panels.map Panel.id).Nodup)
    (h3 : ∀ p ∈ panels, p.id ≤ counter) :
    panels.map f ≠ []
    ∧ ((panels.map f).map Panel.id).Nodup
    ∧ ∀ p ∈ panels.map f, p.id ≤ counter := by
  refine ⟨by simpa using h1, ?_, ?_⟩
  · rw [List.map_map]
    have hcomp : Panel.id ∘ f = Panel.id := funext hf
    rw [hcomp]
    exact h2
  · intro p hp
    rcases List.mem_map.mp hp with ⟨q, hq, rfl⟩
    rw [hf]
    exact h3 q hq

theorem filter_id_ne_nil (a b : Panel) (rest : List Panel) (pid : Nat)
    (hnd : ((a :: b :: rest).map Panel.id).Nodup) :
    (a :: b :: rest).filter (fun p => p.id ≠ pid) ≠ [] := by
  by_cases ha : a.id = pid
  · have hab : a.id ≠ b.id := by
      simp only [List.map_cons, List.nodup_cons, List.mem_cons] at hnd
      exact fun h => hnd.1 (Or.inl h)
    refine List.ne_nil_of_mem (a := b) (List.mem_filter.mpr ⟨?_, ?_⟩)
    · exact List.mem_cons_of_mem _ (List.mem_cons_self _ _)
    · simpa using fun h => hab (by rw [ha, h])
  · exact List.ne_nil_of_mem
      (List.mem_filter.mpr ⟨List.mem_cons_self _ _, by simpa using ha⟩)

theorem mkPanels_spec (configs : List (String × String)) (c : Nat) :
    (mkPanelsFromConfigs configs c).1.length = configs.length
    ∧ c ≤ (mkPanelsFromConfigs configs c).2
    ∧ ((mkPanelsFromConfigs configs c).1.map Panel.id).Nodup
    ∧ ∀ p ∈ (mkPanelsFromConfigs configs c).1,
        c < p.id ∧ p.id ≤ (mkPanelsFromConfigs configs c).2 := by
  induction configs generalizing c with
  | nil => simp [mkPanelsFromConfigs]
  | cons cfg rest ih =>
    obtain ⟨m, e⟩ := cfg
    obtain ⟨ihl, ihc, ihnd, ihb⟩ := ih (c + 1)
    refine ⟨by simp [mkPanelsFromConfigs, createEmptyPanel, ihl], ?_, ?_, ?_⟩
    · simp only [mkPanelsFromConfigs, createEmptyPanel]
      omega
    · simp only [mkPanelsFromConfigs, createEmptyPanel, List.map_cons, List.nodup_cons]
      refine ⟨?_, ihnd⟩
      intro hmem
      rcases List.mem_map.mp hmem with ⟨p, hp, hid⟩
      have := (ihb p hp).1
      omega
    · intro p hp
      simp only [mkPanelsFromConfigs, createEmptyPanel, List.mem_cons] at hp
      rcases hp with rfl | hp
      · simp only [mkPanelsFromConfigs, createEmptyPanel]
        exact ⟨by omega, by omega⟩
      · have := ihb p hp
        simp only [mkPanelsFromConfigs, createEmptyPanel]
        exact ⟨by omega, by omega⟩

theorem initPanels_wf (cfg : EmbedConfig) (d : Discovery.DiscoveryResult) (c : Nat) :
    (initPanels cfg d c).1 ≠ []
    ∧ ((initPanels cfg d c).1.map Panel.id).Nodup
    ∧ ∀ p ∈ (initPanels cfg d c).1, p.id ≤ (initPanels cfg d c).2 := by
  unfold initPanels
  by_cases hpc : cfg.panelConfigs.isEmpty
  · rw [hpc]
    simp only [Bool.not_true, Bool.false_eq_true, if_false]
    cases cfg.model with
    | some m =>
      refine ⟨by simp, by simp, ?_⟩
      intro p hp
      simp only [List.mem_singleton] at hp
      subst hp
      simp [createEmptyPanel]
    | none =>
      refine ⟨by simp, by simp, ?_⟩
      intro p hp
      simp only [List.mem_singleton] at hp
      subst hp
      simp [createEmptyPanel]
  · rw [Bool.not_eq_true] at hpc
    rw [hpc]
    simp only [Bool.not_false, if_true]
    obtain ⟨hl, hc, hnd, hb⟩ := mkPanels_spec cfg.panelConfigs c
    refine ⟨?_, hnd, fun p hp => (hb p hp).2⟩
    intro hnil
    have hne : cfg.panelConfigs ≠ [] := by
      intro h
      rw [h] at hpc
      cases hpc
    have hpos : 0 < cfg.panelConfigs.length := List.length_pos.mpr hne
    rw [hnil] at hl
    simp only [List.length_nil] at hl
    omega
  
theorem nextViewPanels_wf (d : Discovery.DiscoveryResult) (panels : List Panel) (c : Nat)
    (h2 : (panels.map Panel.id).Nodup) (h3 : ∀ p ∈ panels, p.id ≤ c) :
    (nextViewPanels d panels c).1 ≠ []
    ∧ ((nextViewPanels d panels c).1.map Panel.id).Nodup
    ∧ ∀ p ∈ (nextViewPanels d panels c).1, p.id ≤ (nextViewPanels d panels c).2 := by
  unfold nextViewPanels
  by_cases hval :
      ((panels.filter (panelValidInView d)).map resetPanelForView).isEmpty
  · rw [hval]
    simp only [Bool.not_true, Bool.false_eq_true, if_false]
    refine ⟨by simp, by simp, ?_⟩
    intro p hp
    simp only [List.mem_singleton] at hp
    subst hp
    simp [createEmptyPanel]
  · rw [Bool.not_eq_true] at hval
    rw [hval]
    simp only [Bool.not_false, if_true]
    have hreset : ∀ p, (resetPanelForView p).id = p.id := fun p => rfl
    have hndf : ((panels.filter (panelValidInView d)).map Panel.id).Nodup :=
      h2.sublist ((List.filter_sublist panels).map Panel.id)
    refine ⟨?_, ?_, ?_⟩
    · intro hnil
      rw [hnil] at hval
      cases hval
    · rw [List.map_map]
      have hcomp : Panel.id ∘ resetPanelForView = Panel.id := funext hreset
      rw [hcomp]
      exact hndf
    · intro p hp
      rcases List.mem_map.mp hp with ⟨q, hq, rfl⟩
      rw [hreset]
      exact h3 q (List.mem_of_mem_filter hq)

theorem append_one_wf (panels : List Panel) (c : Nat) (p : Panel)
    (hpid : p.id = c + 1)
    (_h1 : panels ≠ []) (h2 : (panels.map Panel.id).Nodup)
    (h3 : ∀ q ∈ panels, q.id ≤ c) :
    panels ++ [p] ≠ []
    ∧ ((panels ++ [p]).map Panel.id).Nodup
    ∧ ∀ q ∈ panels ++ [p], q.id ≤ c + 1 := by
  refine ⟨by simp, ?_, ?_⟩
  · rw [List.map_append]
    refine List.Nodup.append h2 (by simp) ?_
    intro x hx hx'
    simp only [List.map_cons, List.map_nil, List.mem_singleton] at hx'
    rcases List.mem_map.mp hx with ⟨q, hq, rfl⟩
    rw [hpid] at hx'
    have := h3 q hq
    omega
  · intro q hq
    rcases List.mem_append.mp hq with hq | hq
    · exact Nat.le_succ_of_le (h3 q hq)
    · simp only [List.mem_singleton] at hq
      subst hq
      omega

theorem step_preserves_wf (s : ViewerState) (op : Op) (h : PanelsWF s) :
    PanelsWF (step s op) := by
  obtain ⟨h1, h2, h3⟩ := h
  cases op with
  | initViewer cfg disc =>
    cases disc with
    | error msg => exact ⟨h1, h2, h3⟩
    | ok res =>
      obtain ⟨d, grid, fv⟩ := res
      obtain ⟨w1, w2, w3⟩ := initPanels_wf cfg d s.panelIdCounter
      exact ⟨w1, w2, w3⟩
  | setDataView view disc =>
    show PanelsWF (setDataViewOp s view disc)
    unfold setDataViewOp
    by_cases hso : s.storeOpen
    · rw [hso]
      simp only [Bool.not_true, Bool.false_eq_true, if_false]
      cases disc with
      | error msg => exact ⟨h1, h2, h3⟩
      | ok res =>
        obtain ⟨d, grid, fv⟩ := res
        obtain ⟨w1, w2, w3⟩ := nextViewPanels_wf d s.panels s.panelIdCounter h2 h3
        exact ⟨w1, w2, w3⟩
    · rw [Bool.not_eq_true] at hso
      rw [hso]
      simp only [Bool.not_false, if_true]
      exact ⟨h1, h2, h3⟩
  | addPanel =>
    show PanelsWF (addPanelOp s)
    have hid : (match s.models.head? with
        | some m =>
          { (createEmptyPanel s.panelIdCounter).1 with
            selectedModel := some m
            selectedExperiment := ((s.experiments.lookup m).getD []).head? }
        | none => (createEmptyPanel s.panelIdCounter).1).id = s.panelIdCounter + 1 := by
      cases s.models.head? <;> rfl
    obtain ⟨w1, w2, w3⟩ := append_one_wf s.panels s.panelIdCounter _ hid h1 h2 h3
    exact ⟨w1, w2, w3⟩
  | removePanel pid =>
    show PanelsWF (removePanelOp s pid)
    unfold removePanelOp
    by_cases hlen : s.panels.length ≤ 1
    · rw [if_pos hlen]
      exact ⟨h1, h2, h3⟩
    · rw [if_neg hlen]
      refine ⟨?_, ?_, ?_⟩
      · rcases hp : s.panels with _ | ⟨a, tail⟩
        · rw [hp] at hlen
          simp at hlen
        · rcases tail with _ | ⟨b, rest⟩
          · rw [hp] at hlen
            simp at hlen
          · rw [hp] at h2
            exact filter_id_ne_nil a b rest pid h2
      · exact h2.sublist ((List.filter_sublist s.panels).map Panel.id)
      · intro p hp
        exact h3 p (List.mem_of_mem_filter hp)
  | setActivePanel pid => exact ⟨h1, h2, h3⟩
  | setPanelModel pid m =>
    have hf : ∀ p, (modelChangePanel s.experiments pid m p).id = p.id := by
      intro p
      unfold modelChangePanel
      split <;> rfl
    obtain ⟨w1, w2, w3⟩ :=
      map_id_preserving s.panels s.panelIdCounter (modelChangePanel s.experiments pid m)
        hf h1 h2 h3
    exact ⟨w1, w2, w3⟩
  | setPanelExperiment pid e =>
    have hf : ∀ p, (experimentChangePanel pid e p).id = p.id := by
      intro p
      unfold experimentChangePanel
      split <;> rfl
    obtain ⟨w1, w2, w3⟩ :=
      map_id_preserving s.panels s.panelIdCounter (experimentChangePanel pid e) hf h1 h2 h3
    exact ⟨w1, w2, w3⟩
  | setSelectedVariable v => exact ⟨h1, h2, h3⟩
  | setTimeIndex i =>
    show PanelsWF (setTimeIndexOp s i)
    unfold setTimeIndexOp
    cases hyr : CFTime.yearRange (s.panels.map Panel.timeLabels) with
    | none => exact ⟨h1, h2, h3⟩
    | some mm =>
      obtain ⟨minY, maxY⟩ := mm
      have hf : ∀ p, (timeAlignPanel (minY + i) p).id = p.id := by
        intro p
        unfold timeAlignPanel
        rcases p.timeLabels with _ | ls
        · dsimp only
          split <;> rfl
        · dsimp only
          split
          · split <;> rfl
          · split <;> rfl
      obtain ⟨w1, w2, w3⟩ :=
        map_id_preserving s.panels s.panelIdCounter (timeAlignPanel (minY + i)) hf h1 h2 h3
      exact ⟨w1, w2, w3⟩
  | setColormap c => exact ⟨h1, h2, h3⟩
  | setColorRange a b => exact ⟨h1, h2, h3⟩
  | setAutoRange b => exact ⟨h1, h2, h3⟩
  | markAllLoading =>
    have hf : ∀ p, (markLoadingPanel p).id = p.id := by
      intro p
      unfold markLoadingPanel
      split <;> rfl
    obtain ⟨w1, w2, w3⟩ :=
      map_id_preserving s.panels s.panelIdCounter markLoadingPanel hf h1 h2 h3
    exact ⟨w1, w2, w3⟩
  | loadStart pid =>
    have hf : ∀ p, (loadStartPanel pid p).id = p.id := by
      intro p
      unfold loadStartPanel
      split <;> rfl
    obtain ⟨w1, w2, w3⟩ :=
      map_id_preserving s.panels s.panelIdCounter (loadStartPanel pid) hf h1 h2 h3
    exact ⟨w1, w2, w3⟩
  | loadOutOfRange pid mt gm tl =>
    have hf : ∀ p, (outOfRangePanel pid mt gm tl p).id = p.id := by
      intro p
      unfold outOfRangePanel
      split <;> rfl
    obtain ⟨w1, w2, w3⟩ :=
      map_id_preserving s.panels s.panelIdCounter (outOfRangePanel pid mt gm tl) hf h1 h2 h3
    exact ⟨w1, w2, w3⟩
  | loadSuccess pid d sh mt gm tl rti aN fv =>
    have hf : ∀ p, (successPanel pid d sh mt gm tl rti aN p).id = p.id := by
      intro p
      unfold successPanel
      split <;> rfl
    obtain ⟨w1, w2, w3⟩ :=
      map_id_preserving s.panels s.panelIdCounter (successPanel pid d sh mt gm tl rti aN)
        hf h1 h2 h3
    exact ⟨w1, w2, w3⟩
  | loadError pid msg =>
    have hf : ∀ p, (errorPanel pid msg p).id = p.id := by
      intro p
      unfold errorPanel
      split <;> rfl
    obtain ⟨w1, w2, w3⟩ :=
      map_id_preserving s.panels s.panelIdCounter (errorPanel pid msg) hf h1 h2 h3
    exact ⟨w1, w2, w3⟩

end Viewer

/-! ### Claim theorems -/

/-! ### Claims C1 and C2 -/

/-! ### CF time codec lemmas -/

namespace CFTime

/-- `qmul` is rational multiplication. -/
theorem qmul_eq_mul (a b : ℚ) : qmul a b = a * b := by
  rw [qmul, Rat.mkRat_eq_div]
  push_cast
  conv_rhs => rw [← Rat.num_div_den a, ← Rat.num_div_den b, div_mul_div_comm]

/-- `floorQ` is the rational floor. -/
theorem floorQ_eq_floor (q : ℚ) : floorQ q = ⌊q⌋ := by
  rw [floorQ, Rat.floor_def, Int.fdiv_eq_ediv _ (by positivity)]

theorem loFold_none_iff (ys : List (Option Int)) (acc : Option Int) :
    loFold acc ys = none ↔ acc = none ∧ ∀ y? ∈ ys, y? = none := by
  induction ys generalizing acc with
  | nil => simp [loFold]
  | cons y? rest ih =>
    cases y? with
    | none => rw [loFold, ih]; simp
    | some y =>
      cases acc with
      | none => rw [loFold, ih]; simp
      | some a => rw [loFold, ih]; simp

theorem loFold_min (ys : List (Option Int)) (acc : Option Int) (m : Int)
    (h : loFold acc ys = some m) :
    (acc = some m ∨ some m ∈ ys)
    ∧ (∀ y : Int, some y ∈ ys → m ≤ y)
    ∧ (∀ a : Int, acc = some a → m ≤ a) := by
  induction ys generalizing acc with
  | nil =>
    rw [loFold] at h
    subst h
    refine ⟨Or.inl rfl, by simp, ?_⟩
    intro a ha
    cases ha
    exact le_refl _
  | cons y? rest ih =>
    cases y? with
    | none =>
      rw [loFold] at h
      obtain ⟨h1, h2, h3⟩ := ih _ h
      refine ⟨?_, ?_, h3⟩
      · rcases h1 with h1 | h1
        · exact Or.inl h1
        · exact Or.inr (List.mem_cons_of_mem _ h1)
      · intro y hy
        rcases List.mem_cons.mp hy with hy | hy
        · cases hy
        · exact h2 y hy
    | some y0 =>
      cases acc with
      | none =>
        rw [loFold] at h
        obtain ⟨h1, h2, h3⟩ := ih _ h
        have hm0 : m ≤ y0 := h3 y0 rfl
        refine ⟨?_, ?_, by simp⟩
        · rcases h1 with h1 | h1
          · cases h1
            exact Or.inr (List.mem_cons_self _ _)
          · exact Or.inr (List.mem_cons_of_mem _ h1)
        · intro y hy
          rcases List.mem_cons.mp hy with hy | hy
          · cases hy; exact hm0
          · exact h2 y hy
      | some a =>
        rw [loFold] at h
        obtain ⟨h1, h2, h3⟩ := ih _ h
        by_cases hlt : y0 < a
        · rw [if_pos hlt] at h1 h3
          have hm0 : m ≤ y0 := h3 y0 rfl
          refine ⟨?_, ?_, ?_⟩
          · rcases h1 with h1 | h1
            · cases h1
              exact Or.inr (List.mem_cons_self _ _)
            · exact Or.inr (List.mem_cons_of_mem _ h1)
          · intro y hy
            rcases List.mem_cons.mp hy with hy | hy
            · cases hy; exact hm0
            · exact h2 y hy
          · intro b hb
            cases hb
            omega
        · rw [if_neg hlt] at h1 h3
          have hma : m ≤ a := h3 a rfl
          refine ⟨?_, ?_, ?_⟩
          · rcases h1 with h1 | h1
            · exact Or.inl h1
            · exact Or.inr (List.mem_cons_of_mem _ h1)
          · intro y hy
            rcases List.mem_cons.mp hy with hy | hy
            · cases hy; omega
            · exact h2 y hy
          · intro b hb
            cases hb
            exact hma

theorem hiFold_none_iff (ys : List (Option Int)) (acc : Option Int) :
    hiFold acc ys = none ↔ acc = none ∧ ∀ y? ∈ ys, y? = none := by
  induction ys generalizing acc with
  | nil => simp [hiFold]
  | cons y? rest ih =>
    cases y? with
    | none => rw [hiFold, ih]; simp
    | some y =>
      cases acc with
      | none => rw [hiFold, ih]; simp
      | some a => rw [hiFold, ih]; simp

theorem hiFold_max (ys : List (Option Int)) (acc : Option Int) (m : Int)
    (h : hiFold acc ys = some m) :
    (acc = some m ∨ some m ∈ ys)
    ∧ (∀ y : Int, some y ∈ ys → y ≤ m)
    ∧ (∀ a : Int, acc = some a → a ≤ m) := by
  induction ys generalizing acc with
  | nil =>
    rw [hiFold] at h
    subst h
    refine ⟨Or.inl rfl, by simp, ?_⟩
    intro a ha
    cases ha
    exact le_refl _
  | cons y? rest ih =>
    cases y? with
    | none =>
      rw [hiFold] at h
      obtain ⟨h1, h2, h3⟩ := ih _ h
      refine ⟨?_, ?_, h3⟩
      · rcases h1 with h1 | h1
        · exact Or.inl h1
        · exact Or.inr (List.mem_cons_of_mem _ h1)
      · intro y hy
        rcases List.mem_cons.mp hy with hy | hy
        · cases hy
        · exact h2 y hy
    | some y0 =>
      cases acc with
      | none =>
        rw [hiFold] at h
        obtain ⟨h1, h2, h3⟩ := ih _ h
        have hm0 : y0 ≤ m := h3 y0 rfl
        refine ⟨?_, ?_, by simp⟩
        · rcases h1 with h1 | h1
          · cases h1
            exact Or.inr (List.mem_cons_self _ _)
          · exact Or.inr (List.mem_cons_of_mem _ h1)
        · intro y hy
          rcases List.mem_cons.mp hy with hy | hy
          · cases hy; exact hm0
          · exact h2 y hy
      | some a =>
        rw [hiFold] at h
        obtain ⟨h1, h2, h3⟩ := ih _ h
        by_cases hlt : a < y0
        · rw [if_pos hlt] at h1 h3
          have hm0 : y0 ≤ m := h3 y0 rfl
          refine ⟨?_, ?_, ?_⟩
          · rcases h1 with h1 | h1
            · cases h1
              exact Or.inr (List.mem_cons_self _ _)
            · exact Or.inr (List.mem_cons_of_mem _ h1)
          · intro y hy
            rcases List.mem_cons.mp hy with hy | hy
            · cases hy; exact hm0
            · exact h2 y hy
          · intro b hb
            cases hb
            omega
        · rw [if_neg hlt] at h1 h3
          have hma : a ≤ m := h3 a rfl
          refine ⟨?_, ?_, ?_⟩
          · rcases h1 with h1 | h1
            · exact Or.inl h1
            · exact Or.inr (List.mem_cons_of_mem _ h1)
          · intro y hy
            rcases List.mem_cons.mp hy with hy | hy
            · cases hy; omega
            · exact h2 y hy
          · intro b hb
            cases hb
            exact hma

theorem bestGo_some_spec (t : Int) (ys : List (Option Int)) :
    ∀ (i bi b : Nat),
    (bestGo t (some b) ys i bi = bi
      ∧ ∀ (k : Nat) (y : Int), ys[k]? = some (some y) → b ≤ (y - t).natAbs)
    ∨ (∃ (k : Nat) (y : Int), ys[k]? = some (some y)
        ∧ bestGo t (some b) ys i bi = i + k
        ∧ (y - t).natAbs < b
        ∧ (∀ (m : Nat) (y' : Int), ys[m]? = some (some y') → (y - t).natAbs ≤ (y' - t).natAbs)
        ∧ (∀ (m : Nat) (y' : Int), m < k → ys[m]? = some (some y') →
            (y - t).natAbs < (y' - t).natAbs)) := by
  induction ys with
  | nil =>
    intro i bi b
    left
    refine ⟨rfl, ?_⟩
    intro k y hk
    simp at hk
  | cons y? rest ih =>
    intro i bi b
    cases y? with
    | none =>
      rw [bestGo]
      rcases ih (i + 1) bi b with ⟨hr, hall⟩ | ⟨k, y, hk, hr, hlt, hmin, hstrict⟩
      · left
        refine ⟨hr, ?_⟩
        intro k y hk
        cases k with
        | zero => simp at hk
        | succ k => exact hall k y (by simpa using hk)
      · right
        refine ⟨k + 1, y, by simpa using hk, by omega, hlt, ?_, ?_⟩
        · intro m y' hm
          cases m with
          | zero => simp at hm
          | succ m => exact hmin m y' (by simpa using hm)
        · intro m y' hmk hm
          cases m with
          | zero => simp at hm
          | succ m => exact hstrict m y' (by omega) (by simpa using hm)
    | some y0 =>
      rw [bestGo]
      by_cases hd : (y0 - t).natAbs < b
      · rw [if_pos hd]
        rcases ih (i + 1) i ((y0 - t).natAbs) with ⟨hr, hall⟩ | ⟨k, y, hk, hr, hlt, hmin, hstrict⟩
        · right
          refine ⟨0, y0, by simp, by omega, hd, ?_, ?_⟩
          · intro m y' hm
            cases m with
            | zero =>
              simp at hm
              subst hm
              exact le_refl _
            | succ m => exact hall m y' (by simpa using hm)
          · intro m y' hmk hm
            omega
        · right
          refine ⟨k + 1, y, by simpa using hk, by omega, by omega, ?_, ?_⟩
          · intro m y' hm
            cases m with
            | zero =>
              simp at hm
              subst hm
              omega
            | succ m => exact hmin m y' (by simpa using hm)
          · intro m y' hmk hm
            cases m with
            | zero =>
              simp at hm
              subst hm
              omega
            | succ m => exact hstrict m y' (by omega) (by simpa using hm)
      · rw [if_neg hd]
        rcases ih (i + 1) bi b with ⟨hr, hall⟩ | ⟨k, y, hk, hr, hlt, hmin, hstrict⟩
        · left
          refine ⟨hr, ?_⟩
          intro k y hk
          cases k with
          | zero =>
            simp at hk
            subst hk
            omega
          | succ k => exact hall k y (by simpa using hk)
        · right
          refine ⟨k + 1, y, by simpa using hk, by omega, hlt, ?_, ?_⟩
          · intro m y' hm
            cases m with
            | zero =>
              simp at hm
              subst hm
              omega
            | succ m => exact hmin m y' (by simpa using hm)
          · intro m y' hmk hm
            cases m with
            | zero =>
              simp at hm
              subst hm
              omega
            | succ m => exact hstrict m y' (by omega) (by simpa using hm)

theorem bestGo_none_spec (t : Int) (ys : List (Option Int)) :
    ∀ (i bi : Nat),
    (bestGo t none ys i bi = bi ∧ ∀ y? ∈ ys, y? = none)
    ∨ (∃ (k : Nat) (y : Int), ys[k]? = some (some y)
        ∧ bestGo t none ys i bi = i + k
        ∧ (∀ (m : Nat) (y' : Int), ys[m]? = some (some y') → (y - t).natAbs ≤ (y' - t).natAbs)
        ∧ (∀ (m : Nat) (y' : Int), m < k → ys[m]? = some (some y') →
            (y - t).natAbs < (y' - t).natAbs)) := by
  induction ys with
  | nil =>
    intro i bi
    left
    exact ⟨rfl, by simp⟩
  | cons y? rest ih =>
    intro i bi
    cases y? with
    | none =>
      rw [bestGo]
      rcases ih (i + 1) bi with ⟨hr, hall⟩ | ⟨k, y, hk, hr, hmin, hstrict⟩
      · left
        refine ⟨hr, ?_⟩
        intro z hz
        rcases List.mem_cons.mp hz with hz | hz
        · exact hz
        · exact hall z hz
      · right
        refine ⟨k + 1, y, by simpa using hk, by omega, ?_, ?_⟩
        · intro m y' hm
          cases m with
          | zero => simp at hm
          | succ m => exact hmin m y' (by simpa using hm)
        · intro m y' hmk hm
          cases m with
          | zero => simp at hm
          | succ m => exact hstrict m y' (by omega) (by simpa using hm)
    | some y0 =>
      rw [bestGo]
      rcases bestGo_some_spec t rest (i + 1) i ((y0 - t).natAbs) with
        ⟨hr, hall⟩ | ⟨k, y, hk, hr, hlt, hmin, hstrict⟩
      · right
        refine ⟨0, y0, by simp, by omega, ?_, ?_⟩
        · intro m y' hm
          cases m with
          | zero =>
            simp at hm
            subst hm
            exact le_refl _
          | succ m => exact hall m y' (by simpa using hm)
        · intro m y' hmk hm
          omega
      · right
        refine ⟨k + 1, y, by simpa using hk, by omega, ?_, ?_⟩
        · intro m y' hm
          cases m with
          | zero =>
            simp at hm
            subst hm
            omega
          | succ m => exact hmin m y' (by simpa using hm)
        · intro m y' hmk hm
          cases m with
          | zero =>
            simp at hm
            subst hm
            omega
          | succ m => exact hstrict m y' (by omega) (by simpa using hm)

theorem mem_map_year {labels : List String} {y : Int}
    (h : some y ∈ labels.map yearFromLabel) :
    ∃ l ∈ labels, yearFromLabel l = some y := by
  rcases List.mem_map.mp h with ⟨l, hl, hy⟩
  exact ⟨l, hl, hy⟩

theorem findIndexForYear_none_iff (labels : List String) (t : Int) :
    findIndexForYear labels t = none ↔
      (∀ l ∈ labels, ∀ y : Int, yearFromLabel l = some y → t < y)
      ∨ (∀ l ∈ labels, ∀ y : Int, yearFromLabel l = some y → y < t) := by
  cases labels with
  | nil => simp [findIndexForYear]
  | cons a as =>
    rw [findIndexForYear]
    simp only [List.isEmpty_cons, if_false, Bool.false_eq_true]
    rcases h1 : loFold none ((a :: as).map yearFromLabel) with _ | lo
    · have hall := (loFold_none_iff _ none).mp h1
      simp only [true_iff]
      left
      intro l hl y hy
      have : (some y : Option Int) = none :=
        hall.2 _ (List.mem_map.mpr ⟨l, hl, hy⟩)
      cases this
    · rcases h2 : hiFold none ((a :: as).map yearFromLabel) with _ | hi
      · have hall := (hiFold_none_iff _ none).mp h2
        have : loFold none ((a :: as).map yearFromLabel) = none :=
          (loFold_none_iff _ none).mpr ⟨rfl, hall.2⟩
        rw [h1] at this
        cases this
      · obtain ⟨hlo_mem, hlo_lb, _⟩ := loFold_min _ none lo h1
        obtain ⟨hhi_mem, hhi_ub, _⟩ := hiFold_max _ none hi h2
        have hlo_mem' : some lo ∈ (a :: as).map yearFromLabel := by
          rcases hlo_mem with h | h
          · cases h
          · exact h
        have hhi_mem' : some hi ∈ (a :: as).map yearFromLabel := by
          rcases hhi_mem with h | h
          · cases h
          · exact h
        constructor
        · intro hnone
          have hnone' : (if t < lo ∨ hi < t then (none : Option Nat)
              else some (bestGo t none ((a :: as).map yearFromLabel) 0 0)) = none := hnone
          by_cases hcond : t < lo ∨ hi < t
          · rcases hcond with hcond | hcond
            · left
              intro l hl y hy
              have := hlo_lb y (List.mem_map.mpr ⟨l, hl, hy⟩)
              omega
            · right
              intro l hl y hy
              have := hhi_ub y (List.mem_map.mpr ⟨l, hl, hy⟩)
              omega
          · rw [if_neg hcond] at hnone'
            cases hnone'
        · intro hrhs
          have hcond : t < lo ∨ hi < t := by
            rcases hrhs with hrhs | hrhs
            · obtain ⟨l, hl, hy⟩ := mem_map_year hlo_mem'
              exact Or.inl (hrhs l hl lo hy)
            · obtain ⟨l, hl, hy⟩ := mem_map_year hhi_mem'
              exact Or.inr (hrhs l hl hi hy)
          show (if t < lo ∨ hi < t then (none : Option Nat)
              else some (bestGo t none ((a :: as).map yearFromLabel) 0 0)) = none
          rw [if_pos hcond]

theorem findIndexForYear_some_spec (labels : List String) (t : Int) (i : Nat)
    (h : findIndexForYear labels t = some i) :
    ∃ l, labels[i]? = some l ∧ ∃ y : Int, yearFromLabel l = some y
      ∧ (∀ (j : Nat) (l' : String) (y' : Int), labels[j]? = some l' →
          yearFromLabel l' = some y' → (y - t).natAbs ≤ (y' - t).natAbs)
      ∧ (∀ (j : Nat) (l' : String) (y' : Int), j < i → labels[j]? = some l' →
          yearFromLabel l' = some y' → (y - t).natAbs < (y' - t).natAbs) := by
  cases labels with
  | nil => simp [findIndexForYear] at h
  | cons a as =>
    rw [findIndexForYear] at h
    simp only [List.isEmpty_cons, if_false, Bool.false_eq_true] at h
    rcases h1 : loFold none ((a :: as).map yearFromLabel) with _ | lo <;> rw [h1] at h
    · cases h
    · rcases h2 : hiFold none ((a :: as).map yearFromLabel) with _ | hi <;> rw [h2] at h
      · cases h
      · have h' : (if t < lo ∨ hi < t then (none : Option Nat)
            else some (bestGo t none ((a :: as).map yearFromLabel) 0 0)) = some i := h
        by_cases hcond : t < lo ∨ hi < t
        · rw [if_pos hcond] at h'
          cases h'
        · rw [if_neg hcond] at h'
          have hi_eq : i = bestGo t none ((a :: as).map yearFromLabel) 0 0 :=
            (Option.some.injEq _ _ ▸ h').symm
          rcases bestGo_none_spec t ((a :: as).map yearFromLabel) 0 0 with
            ⟨_, hall⟩ | ⟨k, y, hk, hr, hmin, hstrict⟩
          · have : loFold none ((a :: as).map yearFromLabel) = none :=
              (loFold_none_iff _ none).mpr ⟨rfl, hall⟩
            rw [h1] at this
            cases this
          · have hik : i = k := by omega
            subst hik
            rw [List.getElem?_map] at hk
            rcases hmap : (a :: as)[i]? with _ | l <;> rw [hmap] at hk
            · cases hk
            · simp only [Option.map_some'] at hk
              refine ⟨l, rfl, y, by injection hk, ?_, ?_⟩
              · intro j l' y' hj hy'
                refine hmin j y' ?_
                rw [List.getElem?_map, hj, Option.map_some', hy']
              · intro j l' y' hji hj hy'
                refine hstrict j y' hji ?_
                rw [List.getElem?_map, hj, Option.map_some', hy']

end CFTime

/-- Claim C1: for every byte buffer of length `len` and every element size
`e ≥ 1`, the shuffle codec's `decode` produces a buffer of the same length
satisfying `decoded[i*e + j] = encoded[j*n + i]` for `i < n = ⌊len/e⌋` and
`j < e`, and the trailing `len mod e` bytes (positions `n*e ≤ k < len`)
are copied to the output unchanged. -/
theorem claim_C1_shuffle_decode (e : Nat) (_he : 1 ≤ e) (data : List Nat) :
    (ShuffleCodec.decode e data).length = data.length
    ∧ (∀ i j, i < data.length / e → j < e →
        (ShuffleCodec.decode e data).getD (i * e + j) 0
          = data.getD (j * (data.length / e) + i) 0)
    ∧ ∀ k, (data.length / e) * e ≤ k → k < data.length →
        (ShuffleCodec.decode e data).getD k 0 = data.getD k 0 :=
  ⟨ShuffleCodec.length_decode e data,
   fun _ _ hi hj => ShuffleCodec.decode_getD_main e data hi hj,
   fun _ h1 h2 => ShuffleCodec.decode_getD_trailing e data h1 h2⟩

theorem claim_C1_witness :
    1 ≤ 4
    ∧ (ShuffleCodec.decode 4 [10, 20, 30, 40, 50, 60, 70, 80, 90]).getD (1 * 4 + 2) 0
        = [10, 20, 30, 40, 50, 60, 70, 80, 90].getD
            (2 * ([10, 20, 30, 40, 50, 60, 70, 80, 90].length / 4) + 1) 0 :=
  ⟨by decide,
   (claim_C1_shuffle_decode 4 (by decide) [10, 20, 30, 40, 50, 60, 70, 80, 90]).2.1
     1 2 (by decide) (by decide)⟩

/-- Claim C2: for every byte buffer `x` and element size `e ≥ 1`,
`decode (encode x) = x`; in particular for `e = 4`, encoding the 8-byte
buffer `[b0..b7]` yields `[b0,b4,b1,b5,b2,b6,b3,b7]`, and decoding that
result reproduces the original buffer. -/
theorem claim_C2_shuffle_roundtrip (e : Nat) (he : 1 ≤ e) (x : List Nat) :
    ShuffleCodec.decode e (ShuffleCodec.encode e x) = x
    ∧ ∀ b0 b1 b2 b3 b4 b5 b6 b7 : Nat,
        ShuffleCodec.encode 4 [b0, b1, b2, b3, b4, b5, b6, b7]
            = [b0, b4, b1, b5, b2, b6, b3, b7]
        ∧ ShuffleCodec.decode 4 [b0, b4, b1, b5, b2, b6, b3, b7]
            = [b0, b1, b2, b3, b4, b5, b6, b7] := by
  refine ⟨ShuffleCodec.decode_encode e he x, fun b0 b1 b2 b3 b4 b5 b6 b7 => ⟨?_, ?_⟩⟩
  · simp [ShuffleCodec.encode, listWrites, List.range_succ, List.getD]
  · simp [ShuffleCodec.decode, listWrites, List.range_succ, List.getD]

theorem claim_C2_witness :
    1 ≤ 4
    ∧ ShuffleCodec.decode 4 (ShuffleCodec.encode 4 [9, 8, 7, 6, 5, 4, 3, 2, 1])
        = [9, 8, 7, 6, 5, 4, 3, 2, 1] :=
  ⟨by decide, (claim_C2_shuffle_roundtrip 4 (by decide) [9, 8, 7, 6, 5, 4, 3, 2, 1]).1⟩

/-- Claim C4: decoding raw value `365` under units `"days since 2005-1-1"`
with calendar `"365_day"` yields `"2006-01-01"`; decoding raw value `60`
under units `"days since 2000-1-1"` with calendar `"standard"` yields
`"2000-03-01"`, and raw value `59` yields `"2000-02-29"` (2000 is a leap
year). -/
theorem claim_C4_time_decoding :
    CFTime.parseTimeUnits (some "days since 2005-1-1") (some "365_day")
      = some (.encoding { toDays := 1, epochYear := 2005, epochMonth := 1,
                          epochDay := 1, calendar := .day365 })
    ∧ CFTime.decodeTimeValue 365
        (.encoding { toDays := 1, epochYear := 2005, epochMonth := 1,
                     epochDay := 1, calendar := .day365 }) = "2006-01-01"
    ∧ CFTime.parseTimeUnits (some "days since 2000-1-1") (some "standard")
      = some (.encoding { toDays := 1, epochYear := 2000, epochMonth := 1,
                          epochDay := 1, calendar := .standard })
    ∧ CFTime.decodeTimeValue 60
        (.encoding { toDays := 1, epochYear := 2000, epochMonth := 1,
                     epochDay := 1, calendar := .standard }) = "2000-03-01"
    ∧ CFTime.decodeTimeValue 59
        (.encoding { toDays := 1, epochYear := 2000, epochMonth := 1,
                     epochDay := 1, calendar := .standard }) = "2000-02-29" := by
  refine ⟨by decide, by decide, by decide, by decide, by decide⟩

/-- Claim C3: `findIndexForYear` returns `none` exactly when the target
year lies outside the closed interval of the valid (non-NaN) years parsed
from the labels (including when no label has a valid year); otherwise it
returns an index whose label's year has the smallest absolute distance to
the target, ties broken by the earliest index. In particular, on
`["2020-01-01","2025-01-01","2030-01-01"]` target `2027` gives index `1`
and target `2035` gives `none`. -/
theorem claim_C3_findIndexForYear (labels : List String) (t : Int) :
    (CFTime.findIndexForYear labels t = none ↔
        (∀ l ∈ labels, ∀ y : Int, CFTime.yearFromLabel l = some y → t < y)
        ∨ (∀ l ∈ labels, ∀ y : Int, CFTime.yearFromLabel l = some y → y < t))
    ∧ (∀ i : Nat, CFTime.findIndexForYear labels t = some i →
        ∃ l, labels[i]? = some l ∧ ∃ y : Int, CFTime.yearFromLabel l = some y
          ∧ (∀ (j : Nat) (l' : String) (y' : Int), labels[j]? = some l' →
              CFTime.yearFromLabel l' = some y' → (y - t).natAbs ≤ (y' - t).natAbs)
          ∧ (∀ (j : Nat) (l' : String) (y' : Int), j < i → labels[j]? = some l' →
              CFTime.yearFromLabel l' = some y' → (y - t).natAbs < (y' - t).natAbs))
    ∧ CFTime.findIndexForYear ["2020-01-01", "2025-01-01", "2030-01-01"] 2027 = some 1
    ∧ CFTime.findIndexForYear ["2020-01-01", "2025-01-01", "2030-01-01"] 2035 = none :=
  ⟨CFTime.findIndexForYear_none_iff labels t,
   fun i h => CFTime.findIndexForYear_some_spec labels t i h,
   by decide, by decide⟩

theorem claim_C3_witness :
    ∃ l, (["2020-01-01", "2025-01-01", "2030-01-01"] : List String)[1]? = some l
      ∧ ∃ y : Int, CFTime.yearFromLabel l = some y
      ∧ (∀ (j : Nat) (l' : String) (y' : Int),
          (["2020-01-01", "2025-01-01", "2030-01-01"] : List String)[j]? = some l' →
          CFTime.yearFromLabel l' = some y' → (y - 2027).natAbs ≤ (y' - 2027).natAbs)
      ∧ (∀ (j : Nat) (l' : String) (y' : Int), j < 1 →
          (["2020-01-01", "2025-01-01", "2030-01-01"] : List String)[j]? = some l' →
          CFTime.yearFromLabel l' = some y' → (y - 2027).natAbs < (y' - 2027).natAbs) :=
  (claim_C3_findIndexForYear ["2020-01-01", "2025-01-01", "2030-01-01"] 2027).2.1 1 (by decide)

/-- Claim C10: whenever `findIndexForYear` returns a non-null result, the
returned value is an in-bounds index of the label list and the label at
that index parses to a valid (non-NaN) year. -/
theorem claim_C10_index_valid (labels : List String) (t : Int) (i : Nat)
    (h : CFTime.findIndexForYear labels t = some i) :
    i < labels.length
    ∧ ∃ l, labels[i]? = some l ∧ ∃ y : Int, CFTime.yearFromLabel l = some y := by
  obtain ⟨l, hl, y, hy, _, _⟩ := CFTime.findIndexForYear_some_spec labels t i h
  refine ⟨?_, l, hl, y, hy⟩
  rcases List.getElem?_eq_some.mp hl with ⟨hlen, _⟩
  exact hlen

theorem claim_C10_witness :
    1 < (["2020-01-01", "2025-01-01", "2030-01-01"] : List String).length
    ∧ ∃ l, (["2020-01-01", "2025-01-01", "2030-01-01"] : List String)[1]? = some l
        ∧ ∃ y : Int, CFTime.yearFromLabel l = some y :=
  claim_C10_index_valid ["2020-01-01", "2025-01-01", "2030-01-01"] 2027 1 (by decide)

/-- Claim C5 (counterexample): on values `[-5, 0, 5]` with no fill value the
estimator does NOT return the claimed degenerate range `(-5.5, -4.5)`. -/
theorem claim_C5_counterexample :
    ¬ (ColorRange.computeAutoRange [-5, 0, 5] none = (mkRat (-11) 2, mkRat (-9) 2)) := by
  decide

/-- Claim C5 (amended): on values `[-5, 0, 5]` with `fillValue = null` the
filter keeps all three values, the 5th percentile index resolves to `0`
but the 95th percentile index resolves to `⌊3 * 0.95⌋ = 2`, so the
degenerate branch is not taken and the resulting range is
`vmin = -5`, `vmax = 5`. -/
theorem claim_C5_autorange :
    ColorRange.filterValid [-5, 0, 5] none = [-5, 0, 5]
    ∧ ColorRange.percentileIdx 3 5 = 0
    ∧ ColorRange.percentileIdx 3 95 = 2
    ∧ ColorRange.computeAutoRange [-5, 0, 5] none = (-5, 5) := by
  refine ⟨by decide, by decide, by decide, by decide⟩

/-- Claim C6: hierarchy discovery on a store whose base path has children
`[A]`, where `A` has children `[B]` and listing `B`'s children yields an
empty list (or fails), is not classified as depth 2 but as depth 1 with no
model level and the groups collapsed under the synthetic `"_root"` key;
and on a store shaped `root → modelX → expY → {var1, var2, x, time}` it
reports depth 2, `models = [modelX]`, experiments mapping `modelX` to
`[expY]`, and variables `[var1, var2]` with coordinate names excluded. -/
theorem claim_C6_hierarchy :
    Discovery.discoverHierarchy Discovery.leafStoreEmpty none
      = .ok ⟨[], [("_root", ["A"])], ["B"], 1⟩
    ∧ Discovery.discoverHierarchy Discovery.leafStoreFailing none
      = .ok ⟨[], [("_root", ["A"])], ["B"], 1⟩
    ∧ Discovery.discoverHierarchy Discovery.ismipStore none
      = .ok ⟨["modelX"], [("modelX", ["expY"])], ["var1", "var2"], 2⟩ :=
  ⟨rfl, rfl, rfl⟩

/-- Claim C7 (counterexample): in the fallback scenario (target year set,
no decoded labels, `maxTime > 0`), slider position `-3` resolves to `-3`,
which is not in the valid index range `[0, maxTime]`. -/
theorem claim_C7_counterexample :
    Viewer.resolveTimeIndex (-3) 5 (some 2000) none = some (-3)
    ∧ ¬ ((0 : Int) ≤ -3) :=
  ⟨rfl, by decide⟩

/-- Claim C7 (amended): when a target year exists but time labels could not
be decoded and the array has a time axis (`maxTime > 0`), the resolved
index equals `min(sliderPosition, maxTime)` — clamped above to `maxTime`
but not below to `0`; it is a valid index of the time axis for every
non-negative slider position, while negative positions pass through. -/
theorem claim_C7_fallback (timeIndex maxTime : Int) (ty : Int) (hmax : 0 < maxTime) :
    Viewer.resolveTimeIndex timeIndex maxTime (some ty) none
      = some (min timeIndex maxTime)
    ∧ min timeIndex maxTime ≤ maxTime
    ∧ (0 ≤ timeIndex → 0 ≤ min timeIndex maxTime ∧ min timeIndex maxTime ≤ maxTime) := by
  refine ⟨rfl, min_le_right _ _, fun h => ⟨le_min h (by omega), min_le_right _ _⟩⟩

theorem claim_C7_witness :
    (0 : Int) < 5
    ∧ (Viewer.resolveTimeIndex 2 5 (some 1999) none = some (min 2 5)
        ∧ min (2 : Int) 5 ≤ 5
        ∧ ((0 : Int) ≤ 2 → 0 ≤ min (2 : Int) 5 ∧ min (2 : Int) 5 ≤ 5)) :=
  ⟨by decide, claim_C7_fallback 2 5 1999 (by decide)⟩

/-- Claim C8: `setColorRange` always clears `autoRange`, so after every
manual `vmin`/`vmax` edit the state never has `autoRange = true` together
with the hand-edited values. -/
theorem claim_C8_setColorRange (s : Viewer.ViewerState) (a b : ℚ) :
    (Viewer.step s (.setColorRange a b)).autoRange = false
    ∧ (Viewer.step s (.setColorRange a b)).vmin = a
    ∧ (Viewer.step s (.setColorRange a b)).vmax = b
    ∧ ¬((Viewer.step s (.setColorRange a b)).autoRange = true) :=
  ⟨rfl, rfl, rfl, fun h => by cases h⟩


/-- Witness for C8 at the initial state. -/
theorem claim_C8_witness :
    (Viewer.step Viewer.initialState (.setColorRange 1 2)).autoRange = false
    ∧ (Viewer.step Viewer.initialState (.setColorRange 1 2)).vmin = 1
    ∧ (Viewer.step Viewer.initialState (.setColorRange 1 2)).vmax = 2
    ∧ ¬((Viewer.step Viewer.initialState (.setColorRange 1 2)).autoRange = true) :=
  claim_C8_setColorRange Viewer.initialState 1 2

/-- Claim C9: the panels list is never empty — the initial state has one
panel, every state-machine operation preserves `panels.length ≥ 1` (given
the panel-id well-formedness invariant, itself preserved), `removePanel`
leaves the state unchanged when only one panel exists, and `setDataView`
replaces an all-invalid panel set with exactly one fresh empty panel. -/
theorem claim_C9_panels_nonempty :
    1 ≤ Viewer.initialState.panels.length
    ∧ (∀ (s : Viewer.ViewerState) (op : Viewer.Op), Viewer.PanelsWF s →
        Viewer.PanelsWF (Viewer.step s op) ∧ 1 ≤ (Viewer.step s op).panels.length)
    ∧ (∀ (s : Viewer.ViewerState) (pid : Nat),
        s.panels.length = 1 → Viewer.step s (.removePanel pid) = s)
    ∧ (∀ (s : Viewer.ViewerState) (view : String) (d : Discovery.DiscoveryResult)
        (grid : Viewer.GridConfig) (fv : Option ℚ),
        s.storeOpen = true →
        (s.panels.filter (Viewer.panelValidInView d)).isEmpty = true →
        (Viewer.step s (.setDataView view (.ok (d, grid, fv)))).panels
          = [(Viewer.createEmptyPanel s.panelIdCounter).1]) := by
  refine ⟨by decide, ?_, ?_, ?_⟩
  · intro s op h
    have h' := Viewer.step_preserves_wf s op h
    refine ⟨h', ?_⟩
    rcases hp : (Viewer.step s op).panels with _ | ⟨a, l⟩
    · exact absurd hp h'.1
    · simp
  · intro s pid hlen
    show Viewer.removePanelOp s pid = s
    unfold Viewer.removePanelOp
    rw [if_pos (by omega)]
  · intro s view d grid fv hso hfil
    have hfil' : s.panels.filter (Viewer.panelValidInView d) = [] :=
      List.isEmpty_iff.mp hfil
    show (Viewer.setDataViewOp s view (.ok (d, grid, fv))).panels = _
    unfold Viewer.setDataViewOp Viewer.nextViewPanels
    rw [hso]
    simp only [Bool.not_true, Bool.false_eq_true, if_false, hfil', List.map_nil,
      List.isEmpty_nil, if_true]

/-- Witness for C9 at the initial state and an `addPanel` operation. -/
theorem claim_C9_witness :
    Viewer.PanelsWF (Viewer.step Viewer.initialState .addPanel)
    ∧ 1 ≤ (Viewer.step Viewer.initialState .addPanel).panels.length :=
  claim_C9_panels_nonempty.2.1 Viewer.initialState .addPanel
    ⟨by decide, by decide, by decide⟩

end IsmipViewer
